import Mathlib

/-!
# Verification of the AI_Diplomacy playback scheduler

Shallow embedding of the playback scheduler of
`src/ai_animation/src/main.js` (message reveal, unit-transition planning,
phase navigation, play/pause/speed timer discipline) together with the
phase-jump module (`_setPhase` / `nextPhase`).  Pure data and DOM-free
state are modelled; meshes, audio and rendering are out of scope exactly
as they are for the specification.

Conventions:
* JS strings are Lean `String`s (or `List Char` where character-level
  reasoning is needed), JS numbers used as integers are `Int`/`Nat`.
* A JS object used as a dictionary is an association list in insertion
  order; `Set` membership is list membership.
* Timer callbacks are modelled by an explicit small-step relation on a
  scheduler state: arming a timeout appends a fresh handle to the list of
  live handles, `clearTimeout` erases it, and a step of the relation
  fires one pending callback.
-/

/-- A diplomatic message record as it appears in the replay JSON:
`{sender, recipient, message, time_sent}` (main.js reads exactly these
fields). -/
structure Message where
  sender : String
  recipient : String
  message : String
  time_sent : Int
deriving DecidableEq, Repr, Inhabited

/-- The identity string built by `addMessageToChat` (main.js line 2011):
`msgId = sender + "-" + recipient + "-" + time_sent + "-" + message`. -/
def msgId (m : Message) : String :=
  m.sender ++ "-" ++ m.recipient ++ "-" ++ toString m.time_sent ++ "-" ++ m.message

/-- One chat window as stored in the `chatWindows` object (main.js line
1936): its `seenMessages` set and the list of message elements appended to
its `messagesContainer` (each element renders the message plus the phase
name shown as the timestamp).  The DOM element itself carries no further
state the scheduler reads. -/
structure ChatWindow where
  seenMessages : List String
  bucket : List (Message × String)
deriving DecidableEq, Repr

/-- The `chatWindows` object: power name to window, in insertion order. -/
abbrev ChatState := List (String × ChatWindow)

/-- Property access `chatWindows[power]`. -/
def lookupWindow (cw : ChatState) (p : String) : Option ChatWindow :=
  (cw.find? (fun e => e.1 = p)).map (fun e => e.2)

/-- Overwriting the window stored under an existing key (object keys are
unique, so this rewrites the value in place and keeps the order). -/
def updateWindow (cw : ChatState) (p : String) (w : ChatWindow) : ChatState :=
  cw.map (fun e => if e.1 = p then (p, w) else e)

/-- Target-bucket computation of `addMessageToChat` (main.js lines
2002-2007): GLOBAL messages go to the GLOBAL window, private messages go
to the non-viewpoint counterparty. -/
def targetPowerOf (currentPower : String) (m : Message) : String :=
  if m.recipient = "GLOBAL" then "GLOBAL"
  else if m.sender = currentPower then m.recipient else m.sender

/-- `addMessageToChat(msg, phaseName)` (main.js lines 2000-2051).  Returns
the updated `chatWindows` state together with the JS return value:
`none` models the bare `return` (undefined) taken when the target window
does not exist, `some false` the already-seen skip, `some true` a newly
appended message. -/
def addMessageToChat (currentPower : String) (cw : ChatState) (m : Message)
    (phaseName : String) : ChatState × Option Bool :=
  let targetPower := targetPowerOf currentPower m
  match lookupWindow cw targetPower with
  | none => (cw, none)
  | some w =>
    if msgId m ∈ w.seenMessages then (cw, some false)
    else
      (updateWindow cw targetPower
        ⟨msgId m :: w.seenMessages, w.bucket ++ [(m, phaseName)]⟩, some true)

/-- Stable insertion of a message in front of the first entry with a
strictly later-or-equal timestamp; placing it after earlier elements with
the same `time_sent` reproduces the stability of
`Array.prototype.sort((a, b) => a.time_sent - b.time_sent)`. -/
def orderedInsert (m : Message) : List Message → List Message
  | [] => [m]
  | a :: as => if m.time_sent ≤ a.time_sent then m :: a :: as else a :: orderedInsert m as

/-- Stable sort by `time_sent` ascending (main.js line 1958). -/
def sortByTimeSent (msgs : List Message) : List Message :=
  msgs.foldr orderedInsert []

/-- The filter-and-sort prefix of `updateChatWindows` (main.js lines
1951-1958): keep messages sent by, or addressed to, the viewpoint power,
or addressed to GLOBAL, then sort by `time_sent`. -/
def relevantMessages (currentPower : String) (msgs : List Message) : List Message :=
  sortByTimeSent (msgs.filter
    (fun m => m.sender = currentPower ∨ m.recipient = currentPower ∨ m.recipient = "GLOBAL"))

/-- The cumulative effect on `chatWindows` of revealing a list of
messages in order: both the all-at-once branch and the stepwise branch of
`updateChatWindows` perform exactly this sequence of `addMessageToChat`
calls. -/
def revealMessages (currentPower : String) (cw : ChatState) (msgs : List Message)
    (phaseName : String) : ChatState :=
  msgs.foldl (fun st m => (addMessageToChat currentPower st m phaseName).1) cw

/-- The message-reveal path for one phase: filter, sort, then reveal each
message in order. -/
def revealPhase (currentPower : String) (cw : ChatState) (phaseMessages : List Message)
    (phaseName : String) : ChatState :=
  revealMessages currentPower cw (relevantMessages currentPower phaseMessages) phaseName

/-- The seen-set of the window stored under `p` (empty if absent). -/
def seenOf (cw : ChatState) (p : String) : List String :=
  match lookupWindow cw p with
  | some w => w.seenMessages
  | none => []

/-- The bucket contents of the window stored under `p` (empty if absent). -/
def bucketOf (cw : ChatState) (p : String) : List (Message × String) :=
  match lookupWindow cw p with
  | some w => w.bucket
  | none => []

/-- The identity key of the specification: (sender, recipient,
time_sent, content). -/
def msgKey (m : Message) : String × String × Int × String :=
  (m.sender, m.recipient, m.time_sent, m.message)

/-- The id string is a function of the identity key. -/
def idOfKey (k : String × String × Int × String) : String :=
  k.1 ++ "-" ++ k.2.1 ++ "-" ++ toString k.2.2.1 ++ "-" ++ k.2.2.2

/-- Number of entries of `p`-s bucket whose message has identity key `k`. -/
def countKey (cw : ChatState) (p : String) (k : String × String × Int × String) : Nat :=
  (bucketOf cw p).countP (fun e => decide (msgKey e.1 = k))

theorem msgId_eq_idOfKey (m : Message) : msgId m = idOfKey (msgKey m) := rfl

theorem lookupWindow_updateWindow (cw : ChatState) (p t : String) (w : ChatWindow) :
    lookupWindow (updateWindow cw p w) t =
      if p = t then (lookupWindow cw t).map (fun _ => w) else lookupWindow cw t := by
  unfold lookupWindow updateWindow
  rw [List.find?_map]
  have hpred : ((fun (e : String × ChatWindow) => decide (e.1 = t)) ∘
      (fun e => if e.1 = p then (p, w) else e)) =
      (fun (e : String × ChatWindow) => decide (e.1 = t)) := by
    funext e
    by_cases h : e.1 = p <;> simp [h]
  rw [hpred]
  cases hf : cw.find? (fun e => decide (e.1 = t)) with
  | none => by_cases hpt : p = t <;> simp [hpt]
  | some e =>
    have he : e.1 = t := by simpa using List.find?_some hf
    by_cases hpt : p = t
    · subst hpt
      simp [he]
    · have : e.1 ≠ p := by rw [he]; exact fun hc => hpt hc.symm
      simp [hpt, this]

theorem addMessage_cases (cp : String) (cw : ChatState) (m : Message) (pn : String) :
    (lookupWindow cw (targetPowerOf cp m) = none ∧ addMessageToChat cp cw m pn = (cw, none)) ∨
    (∃ w, lookupWindow cw (targetPowerOf cp m) = some w ∧ msgId m ∈ w.seenMessages ∧
      addMessageToChat cp cw m pn = (cw, some false)) ∨
    (∃ w, lookupWindow cw (targetPowerOf cp m) = some w ∧ msgId m ∉ w.seenMessages ∧
      addMessageToChat cp cw m pn = (updateWindow cw (targetPowerOf cp m)
        ⟨msgId m :: w.seenMessages, w.bucket ++ [(m, pn)]⟩, some true)) := by
  unfold addMessageToChat
  cases h : lookupWindow cw (targetPowerOf cp m) with
  | none => exact Or.inl ⟨rfl, by simp [h]⟩
  | some w =>
    by_cases hm : msgId m ∈ w.seenMessages
    · exact Or.inr (Or.inl ⟨w, rfl, hm, by simp [h, hm]⟩)
    · exact Or.inr (Or.inr ⟨w, rfl, hm, by simp [h, hm]⟩)

theorem lookupWindow_none_addMessage (cp : String) (cw : ChatState) (m : Message)
    (pn : String) (t : String) (h : lookupWindow cw t = none) :
    lookupWindow (addMessageToChat cp cw m pn).1 t = none := by
  rcases addMessage_cases cp cw m pn with ⟨-, heq⟩ | ⟨w, -, -, heq⟩ | ⟨w, hw, -, heq⟩
  · rw [heq]; exact h
  · rw [heq]; exact h
  · rw [heq]
    rw [lookupWindow_updateWindow]
    by_cases hpt : targetPowerOf cp m = t
    · simp [hpt, h]
    · simp [hpt, h]

theorem seenOf_mono (cp : String) (cw : ChatState) (m : Message) (pn : String)
    (t : String) (x : String) (h : x ∈ seenOf cw t) :
    x ∈ seenOf (addMessageToChat cp cw m pn).1 t := by
  rcases addMessage_cases cp cw m pn with ⟨-, heq⟩ | ⟨w, -, -, heq⟩ | ⟨w, hw, -, heq⟩
  · rw [heq]; exact h
  · rw [heq]; exact h
  · rw [heq]
    unfold seenOf at h ⊢
    rw [lookupWindow_updateWindow]
    by_cases hpt : targetPowerOf cp m = t
    · subst hpt
      rw [hw] at h ⊢
      simp only [Option.map_some]
      exact List.mem_cons_of_mem _ h
    · simp only [hpt, if_false]
      exact h

/-- A state has absorbed a message when re-running `addMessageToChat` on it
leaves the chat windows unchanged. -/
def absorbed (cp pn : String) (cw : ChatState) (m : Message) : Prop :=
  (addMessageToChat cp cw m pn).1 = cw

theorem absorbed_iff (cp pn : String) (cw : ChatState) (m : Message) :
    absorbed cp pn cw m ↔
      (lookupWindow cw (targetPowerOf cp m) = none ∨
        msgId m ∈ seenOf cw (targetPowerOf cp m)) := by
  constructor
  · intro hab
    rcases addMessage_cases cp cw m pn with ⟨hN, -⟩ | ⟨w, hw, hm, -⟩ | ⟨w, hw, hm, heq⟩
    · exact Or.inl hN
    · refine Or.inr ?_
      unfold seenOf
      rw [hw]
      exact hm
    · exfalso
      have hab2 : updateWindow cw (targetPowerOf cp m)
          ⟨msgId m :: w.seenMessages, w.bucket ++ [(m, pn)]⟩ = cw := by
        have h2 := hab
        unfold absorbed at h2
        rw [heq] at h2
        exact h2
      have hlook : lookupWindow cw (targetPowerOf cp m) = some w := hw
      have : lookupWindow (updateWindow cw (targetPowerOf cp m)
          ⟨msgId m :: w.seenMessages, w.bucket ++ [(m, pn)]⟩) (targetPowerOf cp m) =
          some ⟨msgId m :: w.seenMessages, w.bucket ++ [(m, pn)]⟩ := by
        rw [lookupWindow_updateWindow]
        simp [hlook]
      rw [hab2, hlook] at this
      have hwe : w = ChatWindow.mk (msgId m :: w.seenMessages) (w.bucket ++ [(m, pn)]) :=
        Option.some.inj this
      have : w.seenMessages = msgId m :: w.seenMessages := congrArg ChatWindow.seenMessages hwe
      have hlen : w.seenMessages.length = w.seenMessages.length + 1 := by
        conv_lhs => rw [this]
        simp
      omega
  · intro h
    unfold absorbed addMessageToChat
    rcases h with hN | hS
    · simp [hN]
    · unfold seenOf at hS
      cases hw : lookupWindow cw (targetPowerOf cp m) with
      | none => simp [hw]
      | some w =>
        rw [hw] at hS
        simp [hw, hS]

theorem absorbed_after (cp pn : String) (cw : ChatState) (m : Message) :
    absorbed cp pn (addMessageToChat cp cw m pn).1 m := by
  rw [absorbed_iff]
  rcases addMessage_cases cp cw m pn with ⟨hN, heq⟩ | ⟨w, hw, hm, heq⟩ | ⟨w, hw, hm, heq⟩
  · rw [heq]; exact Or.inl hN
  · refine Or.inr ?_
    rw [heq]
    unfold seenOf
    rw [hw]
    exact hm
  · refine Or.inr ?_
    rw [heq]
    unfold seenOf
    rw [lookupWindow_updateWindow]
    simp [hw]

theorem absorbed_persists (cp pn : String) (cw : ChatState) (m m' : Message)
    (h : absorbed cp pn cw m) :
    absorbed cp pn (addMessageToChat cp cw m' pn).1 m := by
  rw [absorbed_iff] at h ⊢
  rcases h with hN | hS
  · exact Or.inl (lookupWindow_none_addMessage cp cw m' pn _ hN)
  · exact Or.inr (seenOf_mono cp cw m' pn _ _ hS)

theorem absorbed_persists_fold (cp pn : String) (cw : ChatState) (m : Message)
    (l : List Message) (h : absorbed cp pn cw m) :
    absorbed cp pn (revealMessages cp cw l pn) m := by
  induction l generalizing cw with
  | nil => exact h
  | cons a as ih =>
    exact ih _ (absorbed_persists cp pn cw m a h)

theorem all_absorbed_after_fold (cp pn : String) (cw : ChatState) (l : List Message) :
    ∀ m ∈ l, absorbed cp pn (revealMessages cp cw l pn) m := by
  induction l generalizing cw with
  | nil => intro m hm; cases hm
  | cons a as ih =>
    intro m hm
    rcases List.mem_cons.mp hm with rfl | hmem
    · exact absorbed_persists_fold cp pn _ m as (absorbed_after cp pn cw m)
    · exact ih _ m hmem

theorem revealMessages_of_all_absorbed (cp pn : String) (cw : ChatState)
    (l : List Message) (h : ∀ m ∈ l, absorbed cp pn cw m) :
    revealMessages cp cw l pn = cw := by
  induction l with
  | nil => rfl
  | cons a as ih =>
    have ha : (addMessageToChat cp cw a pn).1 = cw := h a (List.mem_cons_self a as)
    show revealMessages cp (addMessageToChat cp cw a pn).1 as pn = cw
    rw [ha]
    exact ih (fun m hm => h m (List.mem_cons_of_mem a hm))

theorem revealMessages_idem (cp pn : String) (cw : ChatState) (l : List Message) :
    revealMessages cp (revealMessages cp cw l pn) l pn = revealMessages cp cw l pn :=
  revealMessages_of_all_absorbed cp pn _ l (all_absorbed_after_fold cp pn cw l)

theorem bucketOf_addMessage (cp pn p : String) (cw : ChatState) (m : Message) :
    bucketOf (addMessageToChat cp cw m pn).1 p = bucketOf cw p ∨
    (targetPowerOf cp m = p ∧ msgId m ∉ seenOf cw p ∧
      bucketOf (addMessageToChat cp cw m pn).1 p = bucketOf cw p ++ [(m, pn)] ∧
      msgId m ∈ seenOf (addMessageToChat cp cw m pn).1 p) := by
  rcases addMessage_cases cp cw m pn with ⟨-, heq⟩ | ⟨w, -, -, heq⟩ | ⟨w, hw, hm, heq⟩
  · rw [heq]; exact Or.inl rfl
  · rw [heq]; exact Or.inl rfl
  · by_cases hpt : targetPowerOf cp m = p
    · refine Or.inr ⟨hpt, ?_, ?_, ?_⟩
      · subst hpt
        unfold seenOf
        rw [hw]
        exact hm
      · rw [heq]
        subst hpt
        unfold bucketOf
        rw [lookupWindow_updateWindow]
        simp [hw]
      · rw [heq]
        subst hpt
        unfold seenOf
        rw [lookupWindow_updateWindow]
        simp [hw]
    · refine Or.inl ?_
      rw [heq]
      unfold bucketOf
      rw [lookupWindow_updateWindow]
      simp [hpt]

theorem countKey_addMessage_of_seen (cp pn p : String) (cw : ChatState) (m : Message)
    (k : String × String × Int × String) (hk : idOfKey k ∈ seenOf cw p) :
    countKey (addMessageToChat cp cw m pn).1 p k = countKey cw p k := by
  rcases bucketOf_addMessage cp pn p cw m with hb | ⟨-, hns, hb, -⟩
  · unfold countKey
    rw [hb]
  · unfold countKey
    rw [hb, List.countP_append]
    have hne : msgKey m ≠ k := by
      intro hkey
      apply hns
      rw [msgId_eq_idOfKey, hkey]
      exact hk
    simp [hne]

theorem countKey_addMessage_le (cp pn p : String) (cw : ChatState) (m : Message)
    (k : String × String × Int × String) :
    countKey (addMessageToChat cp cw m pn).1 p k ≤ countKey cw p k + 1 ∧
      (countKey (addMessageToChat cp cw m pn).1 p k ≠ countKey cw p k →
        idOfKey k ∈ seenOf (addMessageToChat cp cw m pn).1 p) := by
  rcases bucketOf_addMessage cp pn p cw m with hb | ⟨-, -, hb, hseen⟩
  · constructor
    · unfold countKey
      rw [hb]
      omega
    · intro hne
      exfalso
      apply hne
      unfold countKey
      rw [hb]
  · constructor
    · unfold countKey
      rw [hb, List.countP_append]
      have : List.countP (fun e => decide (msgKey e.1 = k)) [(m, pn)] ≤ 1 := by
        by_cases hkey : msgKey m = k <;> simp [hkey]
      omega
    · intro hne
      by_cases hkey : msgKey m = k
      · rw [← hkey, ← msgId_eq_idOfKey]
        exact hseen
      · exfalso
        apply hne
        unfold countKey
        rw [hb, List.countP_append]
        simp [hkey]

theorem countKey_fold (cp pn p : String) (k : String × String × Int × String)
    (l : List Message) (cw : ChatState) :
    (idOfKey k ∈ seenOf cw p →
      countKey (revealMessages cp cw l pn) p k = countKey cw p k) ∧
      countKey (revealMessages cp cw l pn) p k ≤ countKey cw p k + 1 := by
  induction l generalizing cw with
  | nil => exact ⟨fun _ => rfl, Nat.le_succ _⟩
  | cons a as ih =>
    have hstep := countKey_addMessage_le cp pn p cw a k
    have hfold :
        revealMessages cp cw (a :: as) pn =
          revealMessages cp (addMessageToChat cp cw a pn).1 as pn := rfl
    constructor
    · intro hk
      rw [hfold]
      have h1 : countKey (addMessageToChat cp cw a pn).1 p k = countKey cw p k :=
        countKey_addMessage_of_seen cp pn p cw a k hk
      have h2 : idOfKey k ∈ seenOf (addMessageToChat cp cw a pn).1 p :=
        seenOf_mono cp cw a pn p _ hk
      rw [(ih _).1 h2, h1]
    · rw [hfold]
      by_cases hch : countKey (addMessageToChat cp cw a pn).1 p k = countKey cw p k
      · have := (ih ((addMessageToChat cp cw a pn).1)).2
        omega
      · have hseen := hstep.2 hch
        have heq := (ih _).1 hseen
        have := hstep.1
        omega

/-- C1: the message-reveal path is idempotent per phase: revealing the
same phase a second time leaves every chat bucket (indeed the whole chat
state, seen-sets included) unchanged, and across both invocations each
bucket gains at most one entry per message identity key
(sender, recipient, time_sent, content). -/
theorem c1_reveal_idempotent_dedupe (cp pn : String) (cw : ChatState)
    (phaseMessages : List Message) (p : String)
    (k : String × String × Int × String) :
    revealPhase cp (revealPhase cp cw phaseMessages pn) phaseMessages pn =
        revealPhase cp cw phaseMessages pn ∧
      countKey (revealPhase cp cw phaseMessages pn) p k ≤ countKey cw p k + 1 ∧
      countKey (revealPhase cp (revealPhase cp cw phaseMessages pn) phaseMessages pn) p k ≤
        countKey cw p k + 1 := by
  unfold revealPhase
  refine ⟨revealMessages_idem cp pn cw _, ?_, ?_⟩
  · exact (countKey_fold cp pn p k _ cw).2
  · rw [revealMessages_idem cp pn cw _]
    exact (countKey_fold cp pn p k _ cw).2

/-! ## The playback scheduler

The play/pause/timer machinery of main.js is a cooperative state machine:
the render loop (`animate`), the stepwise message chain (`showNext` inside
`updateChatWindows`), the phase-advance timeouts
(`setTimeout(() => advanceToNextPhase(), playbackSpeed)`), the speed
selector and the play/pause button all mutate one shared set of module
variables.  We model that shared state explicitly and each callback as a
state-transition function; a small-step relation fires one pending
callback or UI event at a time, which is exactly the interleaving the
single-threaded event loop provides.

Ghost fields (present only to observe the run, never read by a
transition): `revealDone`, `created`, `advanceCount`, `nodCount`.
-/

/-- The slice of one phase of the replay document that the scheduler
reads: its name, its raw message list and the number of well-formed unit
strings (each of which yields one animation object in
`animateUnitsForPhase`). -/
structure PhaseData where
  name : String
  messages : List Message
  unitCount : Nat
deriving DecidableEq, Repr

/-- One pending `showNext` continuation: the closure captures the
relevant-message list and the running index of its own `updateChatWindows`
invocation (plus, as ghost data, the phase index it was created for). -/
structure Chain where
  msgs : List Message
  index : Nat
  phaseIdx : Nat
  phaseName : String
deriving DecidableEq, Repr

/-- The scheduler's shared mutable state (the module-level variables of
main.js), plus the pending-callback pools and the ghost observers. -/
structure SchedState where
  phases : List PhaseData
  currentPower : String
  phaseIndex : Nat
  isPlaying : Bool
  messagesPlaying : Bool
  unitAnims : Nat
  playbackTimer : Option Nat
  advTimers : List Nat
  chains : List Chain
  nextH : Nat
  chat : ChatState
  revealDone : List Nat
  created : List (Nat × Bool)
  advanceCount : Nat
  nodCount : Nat
deriving DecidableEq, Repr

/-- Arm a phase-advance timeout (`playbackTimer = setTimeout(...)`): a
fresh live handle is appended and the `playbackTimer` variable is
overwritten with it.  Note that main.js lines 200 and 1980 do exactly
this, with no `clearTimeout` of a previously stored handle. -/
def armAdvance (s : SchedState) : SchedState :=
  { s with advTimers := s.advTimers ++ [s.nextH],
           playbackTimer := some s.nextH,
           nextH := s.nextH + 1 }

/-- Default used only as the unreachable fallback of a guarded index. -/
def defaultMessage : Message := ⟨"", "", "", 0⟩

/-- The body of the `showNext` closure (main.js lines 1974-1992).  At the
end of the list it clears `messagesPlaying`, records completion of the
chain's phase (ghost) and, if no unit animation is active and playback is
on, arms the next advance.  Otherwise it reveals one message (head nod if
and only if `addMessageToChat` returned true) and schedules its own
continuation. -/
def showNextBody (c : Chain) (s : SchedState) : SchedState :=
  if c.msgs.length ≤ c.index then
    let s1 := { s with messagesPlaying := false,
                       revealDone := s.revealDone ++ [c.phaseIdx] }
    if s1.unitAnims = 0 ∧ s1.isPlaying = true then armAdvance s1 else s1
  else
    let m := c.msgs.getD c.index defaultMessage
    let r := addMessageToChat s.currentPower s.chat m c.phaseName
    { s with chat := r.1,
             nodCount := if r.2 = some true then s.nodCount + 1 else s.nodCount,
             chains := s.chains ++ [⟨c.msgs, c.index + 1, c.phaseIdx, c.phaseName⟩] }

/-- The stepwise branch of `updateChatWindows(phase, true)` (main.js lines
1945-1996): empty message list clears the flag and returns; otherwise the
flag is raised and `showNext()` runs synchronously once on the filtered,
sorted list. -/
def updateChatWindowsStep (idx : Nat) (ph : PhaseData) (s : SchedState) : SchedState :=
  if ph.messages.isEmpty then { s with messagesPlaying := false }
  else
    showNextBody ⟨relevantMessages s.currentPower ph.messages, 0, idx, ph.name⟩
      { s with messagesPlaying := true }

/-- The `animateUnitsForPhase` call as the scheduler sees it (main.js
lines 1568-1633): the animation list is replaced by one animation per
well-formed unit string of the current phase.  The ghost field `created`
records the phase index and whether that phase's reveal chain had already
completed. -/
def animateUnitsStep (ph : PhaseData) (s : SchedState) : SchedState :=
  { s with unitAnims := ph.unitCount,
           created := s.created ++ [(s.phaseIndex, s.revealDone.contains s.phaseIndex)] }

/-- `displayPhaseWithAnimation(index)` (main.js lines 1523-1565), reduced
to its scheduler effects: invalid index returns early; a phase with
messages starts the stepwise reveal; a phase without messages starts the
unit animations immediately.  (Mesh rebuild, ownership coloring and
leaderboard refresh touch no scheduler state.) -/
def displayPhaseWithAnimationStep (s : SchedState) : SchedState :=
  match s.phases.get? s.phaseIndex with
  | none => s
  | some ph =>
    if ph.messages.isEmpty then animateUnitsStep ph s
    else updateChatWindowsStep s.phaseIndex ph s

/-- The index arithmetic of `advanceToNextPhase` (main.js lines
1511-1517): at or past the last index wrap to 0, otherwise increment. -/
def advanceIndex (numPhases idx : Nat) : Nat :=
  if numPhases - 1 ≤ idx then 0 else idx + 1

/-- `advanceToNextPhase()` (main.js lines 1511-1521): wrap or increment
the phase index, then display the new phase with animation.
`advanceCount` is a ghost counter of executions of this callback. -/
def advanceToNextPhaseStep (s : SchedState) : SchedState :=
  displayPhaseWithAnimationStep
    { s with phaseIndex := advanceIndex s.phases.length s.phaseIndex,
             advanceCount := s.advanceCount + 1 }

/-- The speed-selector change handler (main.js lines 1725-1732): while
playing with a stored timer handle, cancel it and arm a replacement. -/
def speedChangeStep (s : SchedState) : SchedState :=
  if s.isPlaying = true then
    match s.playbackTimer with
    | some h => armAdvance { s with advTimers := s.advTimers.erase h }
    | none => s
  else s

/-- `togglePlayback()` (main.js lines 1476-1509).  With at most one phase
it returns untouched.  Turning playback on starts the current phase's
stepwise reveal (or, without messages, the full display path); turning it
off cancels the stored advance handle, empties the animation list and
clears the messages flag. -/
def togglePlaybackStep (s : SchedState) : SchedState :=
  if s.phases.length ≤ 1 then s
  else if s.isPlaying = true then
    { s with isPlaying := false,
             advTimers := match s.playbackTimer with
               | some h => s.advTimers.erase h
               | none => s.advTimers,
             playbackTimer := none,
             unitAnims := 0,
             messagesPlaying := false }
  else
    let s1 := { s with isPlaying := true }
    match s1.phases.get? s1.phaseIndex with
    | none => s1
    | some ph =>
      if ph.messages.isEmpty then displayPhaseWithAnimationStep s1
      else updateChatWindowsStep s1.phaseIndex ph s1

/-- The block at the top of the render loop (main.js lines 145-153): while
playing, once messages are done and no unit animation is active, build the
current phase's unit animations. -/
def frameCreateStep (s : SchedState) : SchedState :=
  match s.phases.get? s.phaseIndex with
  | none => s
  | some ph => animateUnitsStep ph s

/-- Completion of one unit animation inside the render loop (main.js
lines 182-201): the entry is removed and, when it was the last one while
playing with messages done, the next advance is armed (again without
cancelling a stored handle). -/
def animTickStep (s : SchedState) : SchedState :=
  let s1 := { s with unitAnims := s.unitAnims - 1 }
  if s1.unitAnims = 0 ∧ s1.isPlaying = true ∧ s1.messagesPlaying = false
  then armAdvance s1 else s1

/-- One event of the cooperative scheduler: a render frame that starts
unit animations, a unit-animation completion, a pending `showNext`
continuation firing, a pending advance timeout firing, a speed change, or
a play/pause toggle. -/
inductive Step : SchedState → SchedState → Prop where
  | frameCreate (s : SchedState) (h1 : s.isPlaying = true)
      (h2 : s.messagesPlaying = false) (h3 : s.unitAnims = 0) :
      Step s (frameCreateStep s)
  | animTick (s : SchedState) (h : 0 < s.unitAnims) : Step s (animTickStep s)
  | chainFire (s : SchedState) (c : Chain) (h : c ∈ s.chains) :
      Step s (showNextBody c { s with chains := s.chains.erase c })
  | advFire (s : SchedState) (h : Nat) (hm : h ∈ s.advTimers) :
      Step s (advanceToNextPhaseStep { s with advTimers := s.advTimers.erase h })
  | speedChange (s : SchedState) : Step s (speedChangeStep s)
  | toggle (s : SchedState) : Step s (togglePlaybackStep s)

/-- A freshly loaded replay before any playback: module variables as
initialized at the top of main.js, with the chat windows already created
by `loadGame`. -/
def cleanStart (g : List PhaseData) (chat0 : ChatState) : SchedState :=
  { phases := g, currentPower := "FRANCE", phaseIndex := 0,
    isPlaying := false, messagesPlaying := false, unitAnims := 0,
    playbackTimer := none, advTimers := [], chains := [], nextH := 0,
    chat := chat0, revealDone := [], created := [], advanceCount := 0,
    nodCount := 0 }

/-- Pressing play on a freshly loaded replay. -/
def startPlayback (g : List PhaseData) (chat0 : ChatState) : SchedState :=
  togglePlaybackStep (cleanStart g chat0)

/-- Reachability along scheduler events. -/
def Reach : SchedState → SchedState → Prop :=
  Relation.ReflTransGen Step

theorem showNextBody_phaseIndex (c : Chain) (s : SchedState) :
    (showNextBody c s).phaseIndex = s.phaseIndex := by
  unfold showNextBody armAdvance
  split
  · dsimp only
    split <;> rfl
  · rfl

theorem displayStep_phaseIndex (s : SchedState) :
    (displayPhaseWithAnimationStep s).phaseIndex = s.phaseIndex := by
  unfold displayPhaseWithAnimationStep animateUnitsStep updateChatWindowsStep
  split
  · rfl
  · split
    · rfl
    · rw [showNextBody_phaseIndex]

/-- C5: advance() moves the phase index to (phaseIndex + 1) mod
phases.length; in particular at the last index it wraps to 0 instead of
stopping or failing. -/
theorem c5_advance_wraps (s : SchedState) (h : s.phaseIndex < s.phases.length) :
    (advanceToNextPhaseStep s).phaseIndex = (s.phaseIndex + 1) % s.phases.length := by
  unfold advanceToNextPhaseStep
  rw [displayStep_phaseIndex]
  show advanceIndex s.phases.length s.phaseIndex = _
  unfold advanceIndex
  rcases Nat.lt_or_ge s.phaseIndex (s.phases.length - 1) with hlt | hge
  · rw [if_neg (by omega)]
    exact (Nat.mod_eq_of_lt (by omega)).symm
  · rw [if_pos (by omega)]
    have hidx : s.phaseIndex = s.phases.length - 1 := by omega
    rw [hidx]
    have hlen : s.phases.length - 1 + 1 = s.phases.length := by omega
    rw [hlen, Nat.mod_self]

/-- C5 witness: from the last index of a three-phase replay, advance()
lands on index 0. -/
theorem c5_advance_wraps_witness :
    (⟨[⟨"A", [], 0⟩, ⟨"B", [], 0⟩, ⟨"C", [], 0⟩], "FRANCE", 2, false, false, 0,
        none, [], [], 0, [], [], [], 0, 0⟩ : SchedState).phaseIndex <
      (⟨[⟨"A", [], 0⟩, ⟨"B", [], 0⟩, ⟨"C", [], 0⟩], "FRANCE", 2, false, false, 0,
        none, [], [], 0, [], [], [], 0, 0⟩ : SchedState).phases.length ∧
    (advanceToNextPhaseStep
        ⟨[⟨"A", [], 0⟩, ⟨"B", [], 0⟩, ⟨"C", [], 0⟩], "FRANCE", 2, false, false, 0,
          none, [], [], 0, [], [], [], 0, 0⟩).phaseIndex =
      ((⟨[⟨"A", [], 0⟩, ⟨"B", [], 0⟩, ⟨"C", [], 0⟩], "FRANCE", 2, false, false, 0,
          none, [], [], 0, [], [], [], 0, 0⟩ : SchedState).phaseIndex + 1) % 3 ∧
    (advanceToNextPhaseStep
        ⟨[⟨"A", [], 0⟩, ⟨"B", [], 0⟩, ⟨"C", [], 0⟩], "FRANCE", 2, false, false, 0,
          none, [], [], 0, [], [], [], 0, 0⟩).phaseIndex = 0 :=
  ⟨by decide, c5_advance_wraps _ (by decide), by decide⟩

/-- The replay used to exhibit the double-armed advance timer: a first
phase with one qualifying global message and two units, followed by a
quiet phase. -/
def c2game : List PhaseData :=
  [⟨"S1901M", [⟨"FRANCE", "GLOBAL", "hello", 100⟩], 2⟩, ⟨"F1901M", [], 0⟩]

/-- State after pressing play: phase 0's first (and only) message is
revealed synchronously and the chain continuation is pending. -/
def c2s1 : SchedState := startPlayback c2game []

/-- The pending continuation of phase 0's reveal chain. -/
def c2chain : Chain := ⟨[⟨"FRANCE", "GLOBAL", "hello", 100⟩], 1, 0, "S1901M"⟩

/-- The chain completes: messagesPlaying clears and a first advance
timeout is armed (message-completion site, main.js line 1980). -/
def c2s2 : SchedState := showNextBody c2chain { c2s1 with chains := c2s1.chains.erase c2chain }

/-- The next render frame creates phase 0's two unit animations. -/
def c2s3 : SchedState := frameCreateStep c2s2

/-- First unit animation completes. -/
def c2s4 : SchedState := animTickStep c2s3

/-- Second unit animation completes: the animation-completion site
(main.js line 200) arms a second advance timeout without cancelling the
first, which is still pending. -/
def c2s5 : SchedState := animTickStep c2s4

/-- C2 counterexample: the claimed invariant "at most one pending
advance-timer handle is live at every instant" is false: after pressing
play on a phase with one qualifying message and two units, the
message-completion arming site and the animation-completion arming site
each arm a timeout without cancelling the other, leaving two live advance
timers.  (Real-time feasible whenever the configured phase-advance delay
exceeds the 1500 ms unit animation, e.g. a 2000 ms speed setting.) -/
theorem c2_counterexample :
    ¬ (∀ s : SchedState, Reach (startPlayback c2game []) s → s.advTimers.length ≤ 1) := by
  intro hcl
  have h1 : Step c2s1 c2s2 := Step.chainFire c2s1 c2chain (by decide)
  have h2 : Step c2s2 c2s3 := Step.frameCreate c2s2 (by decide) (by decide) (by decide)
  have h3 : Step c2s3 c2s4 := Step.animTick c2s3 (by decide)
  have h4 : Step c2s4 c2s5 := Step.animTick c2s4 (by decide)
  have hr : Reach (startPlayback c2game []) c2s5 :=
    Relation.ReflTransGen.tail
      (Relation.ReflTransGen.tail
        (Relation.ReflTransGen.tail
          (Relation.ReflTransGen.tail Relation.ReflTransGen.refl h1) h2) h3) h4
  have hle := hcl c2s5 hr
  have : c2s5.advTimers.length = 2 := by decide
  omega

/-- C2 (amended): only the speed-change handler cancels the stored handle
before re-arming; cancelling the live stored handle and arming one
replacement leaves the number of live advance timers unchanged.  (The
animation-completion and message-completion sites arm without cancelling,
so the global at-most-one invariant fails; see the counterexample.) -/
theorem c2_speed_change_preserves_pending (s : SchedState) (h : Nat)
    (h1 : s.isPlaying = true) (h2 : s.playbackTimer = some h)
    (h3 : h ∈ s.advTimers) :
    (speedChangeStep s).advTimers.length = s.advTimers.length := by
  unfold speedChangeStep
  rw [h1, h2]
  have hlen : (s.advTimers.erase h).length = s.advTimers.length - 1 :=
    List.length_erase_of_mem h3
  have hpos : 0 < s.advTimers.length := List.length_pos_of_mem h3
  simp only [if_pos rfl, if_true, armAdvance, List.length_append, hlen, List.length_cons,
    List.length_nil]
  omega

/-- C2 witness: a playing state with one live, stored advance timer keeps
exactly one live timer across a speed change. -/
theorem c2_speed_change_preserves_pending_witness :
    (⟨c2game, "FRANCE", 0, true, false, 0, some 5, [5], [], 6, [], [], [], 0, 0⟩ :
        SchedState).isPlaying = true ∧
    (⟨c2game, "FRANCE", 0, true, false, 0, some 5, [5], [], 6, [], [], [], 0, 0⟩ :
        SchedState).playbackTimer = some 5 ∧
    5 ∈ (⟨c2game, "FRANCE", 0, true, false, 0, some 5, [5], [], 6, [], [], [], 0, 0⟩ :
        SchedState).advTimers ∧
    (speedChangeStep
        ⟨c2game, "FRANCE", 0, true, false, 0, some 5, [5], [], 6, [], [], [], 0, 0⟩).advTimers.length =
      (⟨c2game, "FRANCE", 0, true, false, 0, some 5, [5], [], 6, [], [], [], 0, 0⟩ :
        SchedState).advTimers.length :=
  ⟨rfl, rfl, by decide, c2_speed_change_preserves_pending _ 5 rfl rfl (by decide)⟩

theorem showNextBody_isPlaying (c : Chain) (s : SchedState) :
    (showNextBody c s).isPlaying = s.isPlaying := by
  unfold showNextBody armAdvance
  split
  · dsimp only
    split <;> rfl
  · rfl

theorem showNextBody_advTimers_off (c : Chain) (s : SchedState)
    (h : s.isPlaying = false) : (showNextBody c s).advTimers = s.advTimers := by
  unfold showNextBody armAdvance
  split
  · dsimp only
    split
    · next hc => rw [h] at hc; exact absurd hc.2 (by simp)
    · rfl
  · rfl

theorem updateChatWindowsStep_isPlaying (i : Nat) (ph : PhaseData) (s : SchedState) :
    (updateChatWindowsStep i ph s).isPlaying = s.isPlaying := by
  unfold updateChatWindowsStep
  split
  · rfl
  · rw [showNextBody_isPlaying]

theorem updateChatWindowsStep_advTimers_off (i : Nat) (ph : PhaseData) (s : SchedState)
    (h : s.isPlaying = false) : (updateChatWindowsStep i ph s).advTimers = s.advTimers := by
  unfold updateChatWindowsStep
  split
  · rfl
  · rw [showNextBody_advTimers_off]
    exact h

theorem displayStep_isPlaying (s : SchedState) :
    (displayPhaseWithAnimationStep s).isPlaying = s.isPlaying := by
  unfold displayPhaseWithAnimationStep
  split
  · rfl
  · split
    · rfl
    · rw [updateChatWindowsStep_isPlaying]

theorem displayStep_advTimers_off (s : SchedState) (h : s.isPlaying = false) :
    (displayPhaseWithAnimationStep s).advTimers = s.advTimers := by
  unfold displayPhaseWithAnimationStep
  split
  · rfl
  · split
    · rfl
    · rw [updateChatWindowsStep_advTimers_off _ _ _ h]

theorem toggle_on_isPlaying (s : SchedState) (h0 : s.isPlaying = false)
    (hlen : 1 < s.phases.length) : (togglePlaybackStep s).isPlaying = true := by
  unfold togglePlaybackStep
  rw [if_neg (by omega), h0]
  simp only [Bool.false_eq_true, if_false]
  split
  · rfl
  · split
    · rw [displayStep_isPlaying]
    · rw [updateChatWindowsStep_isPlaying]

/-- Replay used for the pause counterexample: a phase with one qualifying
message and two units, then a phase with two qualifying messages. -/
def c4game : List PhaseData :=
  [⟨"S1901M", [⟨"FRANCE", "GLOBAL", "hello", 100⟩], 2⟩,
   ⟨"F1901M", [⟨"ENGLAND", "GLOBAL", "one", 1⟩, ⟨"ENGLAND", "GLOBAL", "two", 2⟩], 0⟩]

/-- Initial chat windows: the GLOBAL window exists. -/
def c4chat : ChatState := [("GLOBAL", ⟨[], []⟩)]

/-- Play pressed: phase 0's message revealed, its continuation pending. -/
def c4s1 : SchedState := startPlayback c4game c4chat

/-- Phase 0's pending reveal continuation. -/
def c4chainA : Chain := ⟨[⟨"FRANCE", "GLOBAL", "hello", 100⟩], 1, 0, "S1901M"⟩

/-- Chain completes: first advance timeout armed. -/
def c4s2 : SchedState := showNextBody c4chainA { c4s1 with chains := c4s1.chains.erase c4chainA }

/-- Render frame creates phase 0's two unit animations. -/
def c4s3 : SchedState := frameCreateStep c4s2

/-- First animation completes. -/
def c4s4 : SchedState := animTickStep c4s3

/-- Second animation completes: a second advance timeout is armed; the
handle of the first is overwritten in playbackTimer but stays live. -/
def c4s5 : SchedState := animTickStep c4s4

/-- Pause: cancels only the stored handle (the second timer); the first
advance timeout remains live. -/
def c4s6 : SchedState := togglePlaybackStep c4s5

/-- The surviving advance timeout fires while paused: advance() runs,
displays phase 1 and reveals its first message. -/
def c4s7 : SchedState := advanceToNextPhaseStep { c4s6 with advTimers := c4s6.advTimers.erase 0 }

/-- Phase 1's reveal continuation, still pending after the pause. -/
def c4chainB : Chain :=
  ⟨[⟨"ENGLAND", "GLOBAL", "one", 1⟩, ⟨"ENGLAND", "GLOBAL", "two", 2⟩], 1, 1, "F1901M"⟩

/-- The reveal chain keeps firing while paused, revealing another
message. -/
def c4s8 : SchedState := showNextBody c4chainB { c4s7 with chains := c4s7.chains.erase c4chainB }

/-- C4 counterexample: after togglePlay() switches playback off, it is
not true that no advance() executes and that the in-flight reveal chain
stops: from a reachable paused state, a step that keeps playback off both
executes advance() (a stale timeout whose handle was overwritten before
the pause) and mutates the chat buckets; and the pending reveal
continuation then fires again while still paused, adding yet another
bucket entry. -/
theorem c4_counterexample :
    (¬ (∀ s s' : SchedState, Reach (startPlayback c4game c4chat) s →
        s.isPlaying = false → Step s s' → s'.isPlaying = false →
        s'.chat = s.chat ∧ s'.advanceCount = s.advanceCount)) ∧
    Reach (startPlayback c4game c4chat) c4s7 ∧ c4s7.isPlaying = false ∧
    Step c4s7 c4s8 ∧ c4s8.isPlaying = false ∧ c4s8.chat ≠ c4s7.chat := by
  have h1 : Step c4s1 c4s2 := Step.chainFire c4s1 c4chainA (by decide)
  have h2 : Step c4s2 c4s3 := Step.frameCreate c4s2 (by decide) (by decide) (by decide)
  have h3 : Step c4s3 c4s4 := Step.animTick c4s3 (by decide)
  have h4 : Step c4s4 c4s5 := Step.animTick c4s4 (by decide)
  have h5 : Step c4s5 c4s6 := Step.toggle c4s5
  have h6 : Step c4s6 c4s7 := Step.advFire c4s6 0 (by decide)
  have hr6 : Reach (startPlayback c4game c4chat) c4s6 :=
    Relation.ReflTransGen.tail
      (Relation.ReflTransGen.tail
        (Relation.ReflTransGen.tail
          (Relation.ReflTransGen.tail
            (Relation.ReflTransGen.tail Relation.ReflTransGen.refl h1) h2) h3) h4) h5
  refine ⟨?_, Relation.ReflTransGen.tail hr6 h6, by decide,
    Step.chainFire c4s7 c4chainB (by decide), by decide, by decide⟩
  intro hcl
  have hq := hcl c4s6 c4s7 hr6 (by decide) h6 (by decide)
  have : c4s7.advanceCount = c4s6.advanceCount + 1 := by decide
  omega

/-- C4 (amended): turning playback off clears the playing flag, cancels
the stored (tracked) advance timeout, empties the unit-animation list and
clears the messages flag; and while playback stays off, no scheduler step
arms a new advance timeout (live handles can only disappear).  The
in-flight reveal chain, however, keeps firing (its timeout handles are
never stored or cancelled), and a live advance timeout whose handle was
overwritten before the pause can still execute advance(); see the
counterexample. -/
theorem c4_pause_quiescence (s : SchedState)
    (hp : s.isPlaying = true) (hlen : 1 < s.phases.length) :
    ((togglePlaybackStep s).isPlaying = false ∧
      (togglePlaybackStep s).playbackTimer = none ∧
      (togglePlaybackStep s).unitAnims = 0 ∧
      (togglePlaybackStep s).messagesPlaying = false ∧
      (togglePlaybackStep s).advTimers =
        (match s.playbackTimer with
          | some h => s.advTimers.erase h
          | none => s.advTimers)) ∧
    (∀ t t' : SchedState, Step t t' → t.isPlaying = false → t'.isPlaying = false →
      t'.advTimers.Sublist t.advTimers) := by
  constructor
  · unfold togglePlaybackStep
    rw [if_neg (by omega), if_pos hp]
    exact ⟨rfl, rfl, rfl, rfl, rfl⟩
  · intro t t' hst h0 h1
    cases hst with
    | frameCreate hg1 hg2 hg3 =>
      rw [h0] at hg1
      exact absurd hg1 (by simp)
    | animTick hg =>
      have hadv : (animTickStep t).advTimers = t.advTimers := by
        unfold animTickStep
        dsimp only
        split
        · next hc => rw [h0] at hc; exact absurd hc.2.1 (by simp)
        · rfl
      rw [hadv]
    | chainFire c hc =>
      have hadv := showNextBody_advTimers_off c { t with chains := t.chains.erase c } h0
      rw [hadv]
    | advFire h hm =>
      have hadv : (advanceToNextPhaseStep { t with advTimers := t.advTimers.erase h }).advTimers
          = t.advTimers.erase h := by
        unfold advanceToNextPhaseStep
        rw [displayStep_advTimers_off _ (by exact h0)]
      rw [hadv]
      exact List.erase_sublist h t.advTimers
    | speedChange =>
      have hid : speedChangeStep t = t := by
        unfold speedChangeStep
        rw [h0]
        simp
      rw [hid]
    | toggle =>
      by_cases hl : t.phases.length ≤ 1
      · have hid : togglePlaybackStep t = t := by
          unfold togglePlaybackStep
          rw [if_pos hl]
        rw [hid]
      · exfalso
        have hon := toggle_on_isPlaying t h0 (by omega)
        rw [h1] at hon
        exact absurd hon (by simp)

/-- C4 witness: pausing the concrete double-armed playback state cancels
the stored handle, clears the animations and flags, and subsequent
paused steps never grow the live-timer set. -/
theorem c4_pause_quiescence_witness :
    c4s5.isPlaying = true ∧ 1 < c4s5.phases.length ∧
      (((togglePlaybackStep c4s5).isPlaying = false ∧
        (togglePlaybackStep c4s5).playbackTimer = none ∧
        (togglePlaybackStep c4s5).unitAnims = 0 ∧
        (togglePlaybackStep c4s5).messagesPlaying = false ∧
        (togglePlaybackStep c4s5).advTimers =
          (match c4s5.playbackTimer with
            | some h => c4s5.advTimers.erase h
            | none => c4s5.advTimers)) ∧
      (∀ t t' : SchedState, Step t t' → t.isPlaying = false → t'.isPlaying = false →
        t'.advTimers.Sublist t.advTimers)) :=
  ⟨by decide, by decide, c4_pause_quiescence c4s5 (by decide) (by decide)⟩

/-- Whether phase `i` of the loaded replay has qualifying messages: raw
messages that survive the viewpoint filter of `updateChatWindows`. -/
def hasQualify (s : SchedState) (i : Nat) : Bool :=
  match s.phases.get? i with
  | some ph => !(relevantMessages s.currentPower ph.messages).isEmpty
  | none => false

/-- Replay used for the ordering counterexample: phase 0 with one
qualifying message and a unit, phase 1 with two qualifying messages and
no units, phase 2 with three qualifying messages and a unit. -/
def c3game : List PhaseData :=
  [⟨"A", [⟨"FRANCE", "GLOBAL", "a", 1⟩], 1⟩,
   ⟨"B", [⟨"ENGLAND", "GLOBAL", "b1", 1⟩, ⟨"ENGLAND", "GLOBAL", "b2", 2⟩], 0⟩,
   ⟨"C", [⟨"ENGLAND", "GLOBAL", "c1", 1⟩, ⟨"ENGLAND", "GLOBAL", "c2", 2⟩,
          ⟨"ENGLAND", "GLOBAL", "c3", 3⟩], 1⟩]

/-- Play pressed on phase 0. -/
def c3s1 : SchedState := startPlayback c3game []

/-- Phase 0's pending reveal continuation. -/
def c3chainA : Chain := ⟨[⟨"FRANCE", "GLOBAL", "a", 1⟩], 1, 0, "A"⟩

/-- Phase 0 reveal completes; first advance timeout armed. -/
def c3s2 : SchedState := showNextBody c3chainA { c3s1 with chains := c3s1.chains.erase c3chainA }

/-- Render frame creates phase 0's unit animation. -/
def c3s3 : SchedState := frameCreateStep c3s2

/-- The animation completes: a second advance timeout is armed while the
first is still pending. -/
def c3s4 : SchedState := animTickStep c3s3

/-- First timeout fires: phase 1 displayed, its reveal chain starts. -/
def c3s5 : SchedState := advanceToNextPhaseStep { c3s4 with advTimers := c3s4.advTimers.erase 0 }

/-- Phase 1's pending continuation. -/
def c3chainB1 : Chain :=
  ⟨[⟨"ENGLAND", "GLOBAL", "b1", 1⟩, ⟨"ENGLAND", "GLOBAL", "b2", 2⟩], 1, 1, "B"⟩

/-- The stale second timeout fires mid-reveal: phase 2 displayed, a
second reveal chain starts while phase 1's chain is still pending. -/
def c3s6 : SchedState := advanceToNextPhaseStep { c3s5 with advTimers := c3s5.advTimers.erase 1 }

/-- Phase 2's pending continuation. -/
def c3chainC1 : Chain :=
  ⟨[⟨"ENGLAND", "GLOBAL", "c1", 1⟩, ⟨"ENGLAND", "GLOBAL", "c2", 2⟩,
    ⟨"ENGLAND", "GLOBAL", "c3", 3⟩], 1, 2, "C"⟩

/-- Phase 1's chain reveals its second message. -/
def c3s7 : SchedState := showNextBody c3chainB1 { c3s6 with chains := c3s6.chains.erase c3chainB1 }

/-- Phase 1's chain, one step further. -/
def c3chainB2 : Chain :=
  ⟨[⟨"ENGLAND", "GLOBAL", "b1", 1⟩, ⟨"ENGLAND", "GLOBAL", "b2", 2⟩], 2, 1, "B"⟩

/-- Phase 1's chain completes and clears the global messagesPlaying flag,
even though phase 2's chain is still mid-reveal. -/
def c3s8 : SchedState := showNextBody c3chainB2 { c3s7 with chains := c3s7.chains.erase c3chainB2 }

/-- The next render frame sees messagesPlaying false and creates phase
2's unit animations while phase 2's reveal is still in flight. -/
def c3s9 : SchedState := frameCreateStep c3s8

/-- C3 counterexample: in animated playback it is not true that every
phase with qualifying messages has its reveal completed before its unit
animations are created: when a stale advance timeout (left live by the
double-arming of the advance timer) fires mid-reveal, two reveal chains
run concurrently and the earlier phase's completion clears the shared
messagesPlaying flag, so the render loop creates the current phase's unit
animations while that phase's reveal chain is still pending.  The ghost
entry (2, false) records that phase 2's animations were created before
phase 2's reveal was done. -/
theorem c3_counterexample :
    ¬ (∀ (s : SchedState) (p : Nat × Bool), Reach (startPlayback c3game []) s →
        p ∈ s.created → hasQualify s p.1 = true → p.2 = true) := by
  intro hcl
  have h1 : Step c3s1 c3s2 := Step.chainFire c3s1 c3chainA (by decide)
  have h2 : Step c3s2 c3s3 := Step.frameCreate c3s2 (by decide) (by decide) (by decide)
  have h3 : Step c3s3 c3s4 := Step.animTick c3s3 (by decide)
  have h4 : Step c3s4 c3s5 := Step.advFire c3s4 0 (by decide)
  have h5 : Step c3s5 c3s6 := Step.advFire c3s5 1 (by decide)
  have h6 : Step c3s6 c3s7 := Step.chainFire c3s6 c3chainB1 (by decide)
  have h7 : Step c3s7 c3s8 := Step.chainFire c3s7 c3chainB2 (by decide)
  have h8 : Step c3s8 c3s9 := Step.frameCreate c3s8 (by decide) (by decide) (by decide)
  have hr : Reach (startPlayback c3game []) c3s9 :=
    Relation.ReflTransGen.tail
      (Relation.ReflTransGen.tail
        (Relation.ReflTransGen.tail
          (Relation.ReflTransGen.tail
            (Relation.ReflTransGen.tail
              (Relation.ReflTransGen.tail
                (Relation.ReflTransGen.tail
                  (Relation.ReflTransGen.tail Relation.ReflTransGen.refl h1) h2) h3) h4)
                h5) h6) h7) h8
  have hfalse := hcl c3s9 (2, false) hr (by decide) (by decide)
  exact absurd hfalse (by decide)

/-- Restriction of the scheduler to calm executions: playback is never
toggled mid-run and an advance timeout only fires while no reveal
continuation is pending (i.e. each phase presentation completes before
the next advance, the regime the code intends). -/
inductive CalmStep : SchedState → SchedState → Prop where
  | frameCreate (s : SchedState) (h1 : s.isPlaying = true)
      (h2 : s.messagesPlaying = false) (h3 : s.unitAnims = 0) :
      CalmStep s (frameCreateStep s)
  | animTick (s : SchedState) (h : 0 < s.unitAnims) : CalmStep s (animTickStep s)
  | chainFire (s : SchedState) (c : Chain) (h : c ∈ s.chains) :
      CalmStep s (showNextBody c { s with chains := s.chains.erase c })
  | advFire (s : SchedState) (h : Nat) (hm : h ∈ s.advTimers) (hq : s.chains = []) :
      CalmStep s (advanceToNextPhaseStep { s with advTimers := s.advTimers.erase h })
  | speedChange (s : SchedState) : CalmStep s (speedChangeStep s)

theorem hasQualify_congr (s t : SchedState) (h1 : s.phases = t.phases)
    (h2 : s.currentPower = t.currentPower) (i : Nat) :
    hasQualify s i = hasQualify t i := by
  unfold hasQualify
  rw [h1, h2]

/-- Invariant of calm executions: every pending continuation belongs to
the current phase, at most one continuation is pending, a pending
continuation keeps messagesPlaying raised, a lowered messagesPlaying flag
during playback means the current phase's reveal (if it had qualifying
messages) is done, and every units-creation event so far happened after
its phase's reveal completed. -/
def CalmInv (s : SchedState) : Prop :=
  (∀ c ∈ s.chains, c.phaseIdx = s.phaseIndex) ∧
  s.chains.length ≤ 1 ∧
  (s.chains ≠ [] → s.messagesPlaying = true) ∧
  (s.isPlaying = true → s.messagesPlaying = false →
    hasQualify s s.phaseIndex = true → s.phaseIndex ∈ s.revealDone) ∧
  (∀ p ∈ s.created, hasQualify s p.1 = true → p.2 = true)

theorem calmInv_updateChat (s : SchedState) (ph : PhaseData)
    (hch : s.chains = [])
    (hcr : ∀ p ∈ s.created, hasQualify s p.1 = true → p.2 = true)
    (hne : ph.messages.isEmpty = false) :
    CalmInv (updateChatWindowsStep s.phaseIndex ph s) := by
  unfold updateChatWindowsStep
  simp only [hne, Bool.false_eq_true, if_false]
  by_cases hrel : (relevantMessages s.currentPower ph.messages).length ≤ 0
  · unfold showNextBody
    rw [if_pos hrel]
    dsimp only
    split
    · refine ⟨?_, ?_, ?_, ?_, ?_⟩
      · intro c hc
        have hc2 : c ∈ s.chains := hc
        rw [hch] at hc2
        cases hc2
      · show s.chains.length ≤ 1
        rw [hch]
        simp
      · intro hne2
        have hne3 : s.chains ≠ [] := hne2
        exact absurd hch hne3
      · intro _ _ _
        show s.phaseIndex ∈ s.revealDone ++ [s.phaseIndex]
        exact List.mem_append_right _ (List.mem_singleton.mpr rfl)
      · exact hcr
    · refine ⟨?_, ?_, ?_, ?_, ?_⟩
      · intro c hc
        have hc2 : c ∈ s.chains := hc
        rw [hch] at hc2
        cases hc2
      · show s.chains.length ≤ 1
        rw [hch]
        simp
      · intro hne2
        have hne3 : s.chains ≠ [] := hne2
        exact absurd hch hne3
      · intro _ _ _
        show s.phaseIndex ∈ s.revealDone ++ [s.phaseIndex]
        exact List.mem_append_right _ (List.mem_singleton.mpr rfl)
      · exact hcr
  · unfold showNextBody
    rw [if_neg hrel]
    refine ⟨?_, ?_, ?_, ?_, ?_⟩
    · intro c hc
      have hc2 : c ∈ s.chains ++ [(⟨relevantMessages s.currentPower ph.messages, 0 + 1,
          s.phaseIndex, ph.name⟩ : Chain)] := hc
      rw [hch] at hc2
      simp only [List.nil_append, List.mem_singleton] at hc2
      rw [hc2]
    · show (s.chains ++ [(⟨relevantMessages s.currentPower ph.messages, 0 + 1,
          s.phaseIndex, ph.name⟩ : Chain)]).length ≤ 1
      rw [hch]
      simp
    · intro _
      rfl
    · intro _ hmp
      exact absurd hmp (by simp)
    · exact hcr

theorem calmInv_display (s : SchedState)
    (hch : s.chains = [])
    (hcr : ∀ p ∈ s.created, hasQualify s p.1 = true → p.2 = true) :
    CalmInv (displayPhaseWithAnimationStep s) := by
  unfold displayPhaseWithAnimationStep
  cases hph : s.phases.get? s.phaseIndex with
  | none =>
    dsimp only
    refine ⟨?_, ?_, ?_, ?_, ?_⟩
    · intro c hc
      rw [hch] at hc
      cases hc
    · rw [hch]
      simp
    · intro hne
      exact absurd hch hne
    · intro _ _ hq
      unfold hasQualify at hq
      rw [hph] at hq
      exact absurd hq (by simp)
    · exact hcr
  | some ph =>
    dsimp only
    by_cases hemp : ph.messages.isEmpty
    · rw [if_pos hemp]
      have hrel : relevantMessages s.currentPower ph.messages = [] := by
        rw [List.isEmpty_iff.mp hemp]
        rfl
      refine ⟨?_, ?_, ?_, ?_, ?_⟩
      · intro c hc
        have hc2 : c ∈ s.chains := hc
        rw [hch] at hc2
        cases hc2
      · show s.chains.length ≤ 1
        rw [hch]
        simp
      · intro hne2
        have hne3 : s.chains ≠ [] := hne2
        exact absurd hch hne3
      · intro _ _ hq
        have hq2 : hasQualify s s.phaseIndex = true := hq
        unfold hasQualify at hq2
        rw [hph] at hq2
        simp [hrel] at hq2
      · intro p hp hq
        have hp2 : p ∈ s.created ++ [(s.phaseIndex, s.revealDone.contains s.phaseIndex)] := hp
        have hq2 : hasQualify s p.1 = true := hq
        rcases List.mem_append.mp hp2 with hold | hnew
        · exact hcr p hold hq2
        · exfalso
          rw [List.mem_singleton] at hnew
          rw [hnew] at hq2
          have hq3 : hasQualify s s.phaseIndex = true := hq2
          unfold hasQualify at hq3
          rw [hph] at hq3
          simp [hrel] at hq3
    · rw [if_neg hemp]
      refine calmInv_updateChat s ph hch hcr ?_
      revert hemp
      cases ph.messages.isEmpty <;> simp

theorem calmInv_startPlayback (g : List PhaseData) (chat0 : ChatState) :
    CalmInv (startPlayback g chat0) := by
  unfold startPlayback togglePlaybackStep
  by_cases hl : (cleanStart g chat0).phases.length ≤ 1
  · rw [if_pos hl]
    refine ⟨?_, ?_, ?_, ?_, ?_⟩
    · intro c hc
      have hc2 : c ∈ ([] : List Chain) := hc
      cases hc2
    · show ([] : List Chain).length ≤ 1
      simp
    · intro hne
      have hne2 : ([] : List Chain) ≠ [] := hne
      exact absurd rfl hne2
    · intro hp
      have hp2 : (false : Bool) = true := hp
      exact absurd hp2 (by simp)
    · intro p hp
      have hp2 : p ∈ ([] : List (Nat × Bool)) := hp
      cases hp2
  · rw [if_neg hl, if_neg (by simp [cleanStart])]
    dsimp only
    split
    · next heq =>
      refine ⟨?_, ?_, ?_, ?_, ?_⟩
      · intro c hc
        have hc2 : c ∈ ([] : List Chain) := hc
        cases hc2
      · show ([] : List Chain).length ≤ 1
        simp
      · intro hne
        have hne2 : ([] : List Chain) ≠ [] := hne
        exact absurd rfl hne2
      · intro _ _ hq
        unfold hasQualify at hq
        rw [heq] at hq
        exact absurd hq (by simp)
      · intro p hp
        have hp2 : p ∈ ([] : List (Nat × Bool)) := hp
        cases hp2
    · next ph heq =>
      split
      · apply calmInv_display
        · rfl
        · intro p hp
          have hp2 : p ∈ ([] : List (Nat × Bool)) := hp
          cases hp2
      · next hemp =>
        apply calmInv_updateChat
        · rfl
        · intro p hp
          have hp2 : p ∈ ([] : List (Nat × Bool)) := hp
          cases hp2
        · revert hemp
          cases ph.messages.isEmpty <;> simp

theorem calmInv_preserved (s s2 : SchedState) (hst : CalmStep s s2)
    (hinv : CalmInv s) : CalmInv s2 := by
  obtain ⟨hA, hB, hC, hD, hE⟩ := hinv
  cases hst with
  | frameCreate h1 h2 h3 =>
    unfold frameCreateStep
    cases hph : s.phases.get? s.phaseIndex with
    | none => exact ⟨hA, hB, hC, hD, hE⟩
    | some ph =>
      dsimp only
      refine ⟨?_, ?_, ?_, ?_, ?_⟩
      · intro c hc
        exact hA c hc
      · exact hB
      · intro hne
        exact hC hne
      · intro hp hmp hq
        exact hD hp hmp hq
      · intro p hp hq
        have hp2 : p ∈ s.created ++ [(s.phaseIndex, s.revealDone.contains s.phaseIndex)] := hp
        have hq2 : hasQualify s p.1 = true := hq
        rcases List.mem_append.mp hp2 with hold | hnew
        · exact hE p hold hq2
        · rw [List.mem_singleton] at hnew
          rw [hnew] at hq2 ⊢
          show s.revealDone.contains s.phaseIndex = true
          exact List.elem_eq_true_of_mem (hD h1 h2 hq2)
  | animTick h =>
    unfold animTickStep
    dsimp only
    split
    · exact ⟨hA, hB, hC, hD, hE⟩
    · exact ⟨hA, hB, hC, hD, hE⟩
  | chainFire c hc =>
    have hlen1 : s.chains.length = 1 :=
      le_antisymm hB (List.length_pos_of_mem hc)
    rcases List.length_eq_one.mp hlen1 with ⟨a, ha⟩
    have hac : c = a := by
      rw [ha] at hc
      simpa using hc
    subst hac
    have herase : s.chains.erase c = [] := by
      rw [ha]
      simp
    have hmp : s.messagesPlaying = true := hC (by rw [ha]; simp)
    have hidx : c.phaseIdx = s.phaseIndex := hA c hc
    rw [herase]
    by_cases hend : c.msgs.length ≤ c.index
    · unfold showNextBody
      rw [if_pos hend]
      dsimp only
      split
      · refine ⟨?_, ?_, ?_, ?_, ?_⟩
        · intro c2 hc2
          have hc3 : c2 ∈ ([] : List Chain) := hc2
          cases hc3
        · show ([] : List Chain).length ≤ 1
          simp
        · intro hne
          have hne2 : ([] : List Chain) ≠ [] := hne
          exact absurd rfl hne2
        · intro _ _ _
          show s.phaseIndex ∈ s.revealDone ++ [c.phaseIdx]
          rw [← hidx]
          exact List.mem_append_right _ (List.mem_singleton.mpr rfl)
        · intro p hp hq
          exact hE p hp hq
      · refine ⟨?_, ?_, ?_, ?_, ?_⟩
        · intro c2 hc2
          have hc3 : c2 ∈ ([] : List Chain) := hc2
          cases hc3
        · show ([] : List Chain).length ≤ 1
          simp
        · intro hne
          have hne2 : ([] : List Chain) ≠ [] := hne
          exact absurd rfl hne2
        · intro _ _ _
          show s.phaseIndex ∈ s.revealDone ++ [c.phaseIdx]
          rw [← hidx]
          exact List.mem_append_right _ (List.mem_singleton.mpr rfl)
        · intro p hp hq
          exact hE p hp hq
    · unfold showNextBody
      rw [if_neg hend]
      refine ⟨?_, ?_, ?_, ?_, ?_⟩
      · intro c2 hc2
        have hc3 : c2 ∈ ([] : List Chain) ++
            [(⟨c.msgs, c.index + 1, c.phaseIdx, c.phaseName⟩ : Chain)] := hc2
        simp only [List.nil_append, List.mem_singleton] at hc3
        rw [hc3]
        exact hidx
      · show (([] : List Chain) ++
            [(⟨c.msgs, c.index + 1, c.phaseIdx, c.phaseName⟩ : Chain)]).length ≤ 1
        simp
      · intro _
        exact hmp
      · intro _ hmp2
        have hmp3 : s.messagesPlaying = false := hmp2
        rw [hmp] at hmp3
        exact absurd hmp3 (by simp)
      · intro p hp hq
        exact hE p hp hq
  | advFire h hm hq2 =>
    unfold advanceToNextPhaseStep
    apply calmInv_display
    · exact hq2
    · intro p hp hqq
      exact hE p hp hqq
  | speedChange =>
    unfold speedChangeStep
    split
    · split
      · exact ⟨hA, hB, hC, hD, hE⟩
      · exact ⟨hA, hB, hC, hD, hE⟩
    · exact ⟨hA, hB, hC, hD, hE⟩

/-- The invariant holds in every state reachable by calm steps. -/
theorem calmInv_reach (g : List PhaseData) (chat0 : ChatState) (s : SchedState)
    (hreach : Relation.ReflTransGen CalmStep (startPlayback g chat0) s) :
    CalmInv s := by
  induction hreach with
  | refl => exact calmInv_startPlayback g chat0
  | tail hr hstep ih => exact calmInv_preserved _ _ hstep ih

/-- C3 (amended): during calm animated playback (playback not toggled
mid-run and each advance firing only after the previous phase's
presentation fully completed, i.e. no stale double-armed advance timeout
firing mid-reveal), every phase with qualifying messages has its reveal
sequence completed (flag cleared after the last qualifying message, or
immediately when none qualify) strictly before that phase's unit
animations are created; every units-creation event recorded in a
reachable state for a phase with qualifying messages carries the
reveal-was-done mark.  Outside that regime the guarantee fails; see the
counterexample. -/
theorem c3_messages_before_units (g : List PhaseData) (chat0 : ChatState)
    (s : SchedState) (p : Nat × Bool)
    (hreach : Relation.ReflTransGen CalmStep (startPlayback g chat0) s)
    (hp : p ∈ s.created) (hq : hasQualify s p.1 = true) : p.2 = true :=
  (calmInv_reach g chat0 s hreach).2.2.2.2 p hp hq

/-- A two-phase replay played calmly to the point where phase 0's units
are created. -/
def c3wgame : List PhaseData :=
  [⟨"A", [⟨"FRANCE", "GLOBAL", "a", 1⟩], 1⟩, ⟨"B", [], 0⟩]

/-- Play pressed; phase 0's message revealed. -/
def c3w1 : SchedState := startPlayback c3wgame []

/-- Phase 0's pending continuation. -/
def c3wchain : Chain := ⟨[⟨"FRANCE", "GLOBAL", "a", 1⟩], 1, 0, "A"⟩

/-- Reveal completes. -/
def c3w2 : SchedState := showNextBody c3wchain { c3w1 with chains := c3w1.chains.erase c3wchain }

/-- Unit animations created for phase 0, after its reveal completed. -/
def c3w3 : SchedState := frameCreateStep c3w2

/-- C3 witness: a calm run on a concrete replay reaches a state whose
units-creation record for the qualifying phase 0 is marked
reveal-was-done. -/
theorem c3_messages_before_units_witness :
    ((0, true) : Nat × Bool) ∈ c3w3.created ∧ hasQualify c3w3 0 = true ∧
      ((0, true) : Nat × Bool).2 = true := by
  have h1 : CalmStep c3w1 c3w2 := CalmStep.chainFire c3w1 c3wchain (by decide)
  have h2 : CalmStep c3w2 c3w3 := CalmStep.frameCreate c3w2 (by decide) (by decide) (by decide)
  refine ⟨by decide, by decide, ?_⟩
  exact c3_messages_before_units c3wgame [] c3w3 (0, true)
    (Relation.ReflTransGen.tail (Relation.ReflTransGen.tail Relation.ReflTransGen.refl h1) h2)
    (by decide) (by decide)

/-- C10: a message whose computed target bucket has no chat window is
silently dropped: `addMessageToChat` returns undefined without touching
any window (so the key is never recorded as seen and no head animation
fires, the caller's isNew being falsy), while the reveal sequence
schedules its next step as usual. -/
theorem c10_missing_window_drop (cp : String) (cw : ChatState) (m : Message)
    (pn : String) (s : SchedState) (c : Chain)
    (hmiss : lookupWindow cw (targetPowerOf cp m) = none)
    (hs : s.chat = cw) (hcp : s.currentPower = cp)
    (hcur : c.msgs.getD c.index defaultMessage = m) (hidx : c.index < c.msgs.length)
    (hpn : c.phaseName = pn) :
    addMessageToChat cp cw m pn = (cw, none) ∧
    (showNextBody c s).chat = s.chat ∧
    (showNextBody c s).nodCount = s.nodCount ∧
    (showNextBody c s).chains =
      s.chains ++ [⟨c.msgs, c.index + 1, c.phaseIdx, c.phaseName⟩] := by
  subst hs hcp hcur hpn
  have hadd : addMessageToChat s.currentPower s.chat (c.msgs.getD c.index defaultMessage)
      c.phaseName = (s.chat, none) := by
    rcases addMessage_cases s.currentPower s.chat (c.msgs.getD c.index defaultMessage)
        c.phaseName with ⟨-, heq⟩ | ⟨w, hw, -, -⟩ | ⟨w, hw, -, -⟩
    · exact heq
    · rw [hmiss] at hw
      cases hw
    · rw [hmiss] at hw
      cases hw
  refine ⟨hadd, ?_, ?_, ?_⟩
  · unfold showNextBody
    rw [if_neg (Nat.not_le.mpr hidx)]
    dsimp only
    rw [hadd]
  · unfold showNextBody
    rw [if_neg (Nat.not_le.mpr hidx)]
    dsimp only
    rw [hadd]
    simp
  · unfold showNextBody
    rw [if_neg (Nat.not_le.mpr hidx)]

/-- Scheduler state for the C10 witness: no chat windows exist. -/
def c10s : SchedState := cleanStart [⟨"P", [⟨"ENGLAND", "ITALY", "x", 5⟩], 0⟩] []

/-- Reveal step about to process the windowless message. -/
def c10c : Chain := ⟨[⟨"ENGLAND", "ITALY", "x", 5⟩], 0, 0, "P"⟩

/-- C10 witness: a private message between two non-viewpoint powers with
no chat window is dropped with no state change while the sequence
continues. -/
theorem c10_missing_window_drop_witness :
    lookupWindow ([] : ChatState)
      (targetPowerOf "FRANCE" ⟨"ENGLAND", "ITALY", "x", 5⟩) = none ∧
    (addMessageToChat "FRANCE" [] ⟨"ENGLAND", "ITALY", "x", 5⟩ "P" = ([], none) ∧
      (showNextBody c10c c10s).chat = c10s.chat ∧
      (showNextBody c10c c10s).nodCount = c10s.nodCount ∧
      (showNextBody c10c c10s).chains =
        c10s.chains ++ [⟨[⟨"ENGLAND", "ITALY", "x", 5⟩], 0 + 1, 0, "P"⟩]) :=
  ⟨by decide,
    c10_missing_window_drop "FRANCE" [] ⟨"ENGLAND", "ITALY", "x", 5⟩ "P" c10s c10c
      (by decide) rfl rfl rfl (by decide) rfl⟩

/-! ## The TypeScript phase-jump module

The concatenated phase module exports `_setPhase`, `nextPhase`,
`previousPhase` over a shared `gameState`.  `_setPhase` validates the
requested index against the loaded game's length before any mutation and
throws on failure; the jump branch clears the animation list, the
single-advance branch clears the playback timer and the animation flags;
both end with the phase index set to the validated target. -/

/-- The slice of the TypeScript `gameState` that `_setPhase` touches.
`phaseIndex` is a JS number, modelled as `Int` so that negative requests
are representable.  `unitMeshes` stands in for the rendered unit objects
(count only), untouched by a rejected jump. -/
structure TSGameState where
  phaseIndex : Int
  unitAnimations : Nat
  playbackTimer : Option Nat
  isAnimating : Bool
  messagesPlaying : Bool
  unitMeshes : Nat
deriving DecidableEq, Repr

/-- The message of the range error thrown by `_setPhase`. -/
def setPhaseError : String := "Provided invalid phaseIndex, cannot setPhase"

/-- `_setPhase(phaseIndex)` (phase module lines 2325-2367), as a state
transformer returning the new state and the thrown error, if any.
Validation happens before any mutation, so the error branch returns the
state unchanged.  `gameLength` is `gameState.gameData.phases.length`.
The rendering work of the two branches (`initUnits`,
`updateMapOwnership`, `updatePhaseDisplay`, `displayPhase` /
`displayFinalPhase`) touches none of the modelled fields except the ones
written here; both branches end with
`gameState.phaseIndex = phaseIndex`. -/
def setPhase (gameLength : Nat) (phaseIndex : Int) (s : TSGameState) :
    TSGameState × Option String :=
  if phaseIndex ≥ (gameLength : Int) ∨ phaseIndex < 0 then
    (s, some setPhaseError)
  else if phaseIndex - s.phaseIndex ≠ 1 then
    ({ s with unitAnimations := 0, phaseIndex := phaseIndex }, none)
  else
    ({ s with playbackTimer := none, isAnimating := false, messagesPlaying := false,
              phaseIndex := phaseIndex }, none)

/-- The prev-button click handler (main.js lines 1710-1715): decrement
only when above 0. -/
def prevClickIndex (idx : Nat) : Nat :=
  if 0 < idx then idx - 1 else idx

/-- The next-button click handler (main.js lines 1716-1721): increment
only while strictly below the last index. -/
def nextClickIndex (numPhases idx : Nat) : Nat :=
  if idx < numPhases - 1 then idx + 1 else idx

/-- C9: a phase-jump request with an index outside [0, length) is
rejected with a range error and mutates nothing: the returned state is
exactly the input state, so phase index, unit meshes, animation list and
timer state are untouched. -/
theorem c9_out_of_range_rejected (gameLength : Nat) (phaseIndex : Int)
    (s : TSGameState) (h : phaseIndex < 0 ∨ phaseIndex ≥ (gameLength : Int)) :
    setPhase gameLength phaseIndex s = (s, some setPhaseError) := by
  unfold setPhase
  rw [if_pos (Or.symm h)]

/-- C9 witness: jumping to index 5 of a 3-phase game throws and leaves
the state untouched, and so does jumping to -1. -/
theorem c9_out_of_range_rejected_witness :
    ((5 : Int) < 0 ∨ (5 : Int) ≥ ((3 : Nat) : Int)) ∧
    setPhase 3 5 ⟨1, 4, some 7, true, true, 9⟩ =
      (⟨1, 4, some 7, true, true, 9⟩, some setPhaseError) ∧
    setPhase 3 (-1) ⟨1, 4, some 7, true, true, 9⟩ =
      (⟨1, 4, some 7, true, true, 9⟩, some setPhaseError) :=
  ⟨by decide, c9_out_of_range_rejected 3 5 ⟨1, 4, some 7, true, true, 9⟩ (by decide),
    c9_out_of_range_rejected 3 (-1) ⟨1, 4, some 7, true, true, 9⟩ (by decide)⟩

theorem showNextBody_phases (c : Chain) (s : SchedState) :
    (showNextBody c s).phases = s.phases := by
  unfold showNextBody armAdvance
  split
  · dsimp only
    split <;> rfl
  · rfl

theorem updateChatWindowsStep_phases (i : Nat) (ph : PhaseData) (s : SchedState) :
    (updateChatWindowsStep i ph s).phases = s.phases := by
  unfold updateChatWindowsStep
  split
  · rfl
  · rw [showNextBody_phases]

theorem updateChatWindowsStep_phaseIndex (i : Nat) (ph : PhaseData) (s : SchedState) :
    (updateChatWindowsStep i ph s).phaseIndex = s.phaseIndex := by
  unfold updateChatWindowsStep
  split
  · rfl
  · rw [showNextBody_phaseIndex]

theorem displayStep_phases (s : SchedState) :
    (displayPhaseWithAnimationStep s).phases = s.phases := by
  unfold displayPhaseWithAnimationStep animateUnitsStep
  split
  · rfl
  · split
    · rfl
    · rw [updateChatWindowsStep_phases]

/-- C6: the phase index stays inside [0, phases.length) across every
transition: wrap-around advance, the prev/next click handlers, any
`_setPhase` jump (accepted or rejected), and every step of the playback
scheduler. -/
theorem c6_index_invariant (n idx : Nat) (t : Int) (ts : TSGameState)
    (s s2 : SchedState)
    (hn : 0 < n) (hidx : idx < n)
    (hts0 : 0 ≤ ts.phaseIndex) (hts1 : ts.phaseIndex < (n : Int))
    (hstep : Step s s2) (hs : s.phaseIndex < s.phases.length) :
    advanceIndex n idx < n ∧
    prevClickIndex idx < n ∧
    nextClickIndex n idx < n ∧
    (0 ≤ (setPhase n t ts).1.phaseIndex ∧ (setPhase n t ts).1.phaseIndex < (n : Int)) ∧
    (s2.phases = s.phases ∧ s2.phaseIndex < s2.phases.length) := by
  refine ⟨?_, ?_, ?_, ?_, ?_⟩
  · unfold advanceIndex
    split <;> omega
  · unfold prevClickIndex
    split <;> omega
  · unfold nextClickIndex
    split <;> omega
  · unfold setPhase
    split
    · exact ⟨hts0, hts1⟩
    · next hrange =>
      rw [not_or] at hrange
      split
      · constructor
        · simpa using hrange.2
        · simpa using hrange.1
      · constructor
        · simpa using hrange.2
        · simpa using hrange.1
  · cases hstep with
    | frameCreate h1 h2 h3 =>
      unfold frameCreateStep
      cases s.phases.get? s.phaseIndex <;> exact ⟨rfl, hs⟩
    | animTick h =>
      unfold animTickStep armAdvance
      dsimp only
      split <;> exact ⟨rfl, hs⟩
    | chainFire c hc =>
      refine ⟨showNextBody_phases _ _, ?_⟩
      rw [showNextBody_phaseIndex, showNextBody_phases]
      exact hs
    | advFire h hm =>
      have hph : (advanceToNextPhaseStep { s with advTimers := s.advTimers.erase h }).phases
          = s.phases := by
        unfold advanceToNextPhaseStep
        rw [displayStep_phases]
      refine ⟨hph, ?_⟩
      rw [hph]
      unfold advanceToNextPhaseStep
      rw [displayStep_phaseIndex]
      show advanceIndex s.phases.length s.phaseIndex < s.phases.length
      unfold advanceIndex
      split <;> omega
    | speedChange =>
      unfold speedChangeStep armAdvance
      split
      · split <;> exact ⟨rfl, hs⟩
      · exact ⟨rfl, hs⟩
    | toggle =>
      unfold togglePlaybackStep
      split
      · exact ⟨rfl, hs⟩
      · split
        · exact ⟨rfl, hs⟩
        · dsimp only
          split
          · exact ⟨rfl, hs⟩
          · split
            · refine ⟨?_, ?_⟩
              · rw [displayStep_phases]
              · rw [displayStep_phaseIndex, displayStep_phases]
                exact hs
            · refine ⟨?_, ?_⟩
              · rw [updateChatWindowsStep_phases]
              · rw [updateChatWindowsStep_phaseIndex, updateChatWindowsStep_phases]
                exact hs

/-- Scheduler state for the C6 witness: one unit animation in flight. -/
def c6ws : SchedState :=
  { cleanStart [⟨"A", [], 0⟩, ⟨"B", [], 0⟩] [] with unitAnims := 1 }

/-- C6 witness: concrete in-range data for every transition kind,
including a scheduler step. -/
theorem c6_index_invariant_witness :
    (0 : Nat) < 3 ∧ (2 : Nat) < 3 ∧
    (0 : Int) ≤ (⟨1, 0, none, false, false, 0⟩ : TSGameState).phaseIndex ∧
    (⟨1, 0, none, false, false, 0⟩ : TSGameState).phaseIndex < ((3 : Nat) : Int) ∧
    c6ws.phaseIndex < c6ws.phases.length ∧
    (advanceIndex 3 2 < 3 ∧
     prevClickIndex 2 < 3 ∧
     nextClickIndex 3 2 < 3 ∧
     (0 ≤ (setPhase 3 2 ⟨1, 0, none, false, false, 0⟩).1.phaseIndex ∧
       (setPhase 3 2 ⟨1, 0, none, false, false, 0⟩).1.phaseIndex < ((3 : Nat) : Int)) ∧
     ((animTickStep c6ws).phases = c6ws.phases ∧
       (animTickStep c6ws).phaseIndex < (animTickStep c6ws).phases.length)) :=
  ⟨by decide, by decide, by decide, by decide, by decide,
    c6_index_invariant 3 2 2 ⟨1, 0, none, false, false, 0⟩ c6ws (animTickStep c6ws)
      (by decide) (by decide) (by decide) (by decide)
      (Step.animTick c6ws (by decide)) (by decide)⟩

/-! ## The unit-transition planner

`animateUnitsForPhase(currentPhase, previousPhase)` (main.js lines
1568-1633) plans one animation per well-formed unit string of the new
phase: it builds a dictionary of the previous phase's unit positions
keyed by the string `power + "-" + type + "-" + location`, then matches
each new unit against the first dictionary key starting with
`power + "-" + type` (claiming it with `delete`), producing a move from
the stored position, or, unmatched, a spawn from y = -20 below the
target's horizontal coordinates.  Coordinate resolution
(`getProvincePosition`, with coastal normalization and hash fallback) is
abstracted as the `getPos` parameter: the planner only forwards the
resolved positions. -/

/-- The seven great powers, the keys of `phase.state.units`. -/
inductive Power where
  | AUSTRIA
  | ENGLAND
  | FRANCE
  | GERMANY
  | ITALY
  | RUSSIA
  | TURKEY
deriving DecidableEq, Repr, Fintype

/-- The power's name as it appears in the dictionary keys. -/
def powerChars : Power → List Char
  | .AUSTRIA => ['A', 'U', 'S', 'T', 'R', 'I', 'A']
  | .ENGLAND => ['E', 'N', 'G', 'L', 'A', 'N', 'D']
  | .FRANCE => ['F', 'R', 'A', 'N', 'C', 'E']
  | .GERMANY => ['G', 'E', 'R', 'M', 'A', 'N', 'Y']
  | .ITALY => ['I', 'T', 'A', 'L', 'Y']
  | .RUSSIA => ['R', 'U', 'S', 'S', 'I', 'A']
  | .TURKEY => ['T', 'U', 'R', 'K', 'E', 'Y']

/-- ASCII whitespace as matched by the regex class \s (the Unicode
whitespace of that class is irrelevant to unit strings). -/
def isSpaceChar (c : Char) : Bool :=
  c = ' ' ∨ c = '\t' ∨ c = '\n' ∨ c = '\r' ∨ c = Char.ofNat 12 ∨ c = Char.ofNat 11

/-- The unit-string pattern of main.js line 1574/1588,
regex ^([AF])\s+(.+)$ : a type letter, whitespace, then the location.
When only whitespace follows the letter, the regex backtracks and (.+)
captures the final whitespace character.  (The lone newline quirk of
an unanchored $ is not reproduced; unit strings are newline-free.) -/
def matchUnitRegex (s : List Char) : Option (Char × List Char) :=
  match s with
  | [] => none
  | c :: rest =>
    if c = 'A' ∨ c = 'F' then
      let ws := rest.takeWhile isSpaceChar
      let rem := rest.dropWhile isSpaceChar
      if ws.length = 0 then none
      else if rem.isEmpty then
        if 2 ≤ ws.length then some (c, ws.drop (ws.length - 1)) else none
      else some (c, rem)
    else none

/-- The dictionary key (main.js lines 1576, 1592):
power + "-" + type + "-" + location. -/
def unitKey (p : Power) (t : Char) (loc : List Char) : List Char :=
  powerChars p ++ '-' :: t :: '-' :: loc

/-- The scan pattern (main.js line 1606): power + "-" + type, tested with
startsWith against each dictionary key. -/
def keyPref (p : Power) (t : Char) : List Char :=
  powerChars p ++ ['-', t]

/-- A resolved 3-D coordinate. -/
structure Pos where
  x : Int
  y : Int
  z : Int
deriving DecidableEq, Repr

/-- JS object assignment d[k] = v: overwrite in place if the key exists,
else append. -/
def objInsert (k : List Char) (v : Pos) (d : List (List Char × Pos)) :
    List (List Char × Pos) :=
  if d.any (fun e => e.1 = k) then d.map (fun e => if e.1 = k then (k, v) else e)
  else d ++ [(k, v)]

/-- The previousUnitPositions dictionary (main.js lines 1570-1581). -/
def buildPrevDict (getPos : List Char → Pos)
    (prevUnits : List (Power × List (List Char))) : List (List Char × Pos) :=
  prevUnits.foldl (fun d pu =>
    pu.2.foldl (fun d u =>
      match matchUnitRegex u with
      | none => d
      | some r => objInsert (unitKey pu.1 r.1 r.2) (getPos r.2) d) d) []

/-- One planned unit animation (main.js lines 1623-1629); the mesh,
start timestamp and constant duration are omitted, the unit metadata of
the mesh is kept. -/
structure UnitAnim where
  power : Power
  utype : Char
  location : List Char
  startPos : Pos
  endPos : Pos
deriving DecidableEq, Repr

/-- Processing of one unit string of the new phase (main.js lines
1587-1630): parse; failure skips the unit; otherwise claim the first
dictionary entry whose key starts with power-type and move from its
position, or spawn from below (y = -20) at the target's x/z. -/
def planStep (getPos : List Char → Pos) (p : Power)
    (acc : List (List Char × Pos) × List UnitAnim) (u : List Char) :
    List (List Char × Pos) × List UnitAnim :=
  match matchUnitRegex u with
  | none => acc
  | some r =>
    let currentPos := getPos r.2
    match acc.1.find? (fun e => (keyPref p r.1).isPrefixOf e.1) with
    | some e =>
      (acc.1.eraseP (fun e => (keyPref p r.1).isPrefixOf e.1),
        acc.2 ++ [⟨p, r.1, r.2, e.2, currentPos⟩])
    | none =>
      (acc.1, acc.2 ++ [⟨p, r.1, r.2, ⟨currentPos.x, -20, currentPos.z⟩, currentPos⟩])

/-- The full planner `animateUnitsForPhase` (main.js lines 1568-1633),
returning the unitAnimations list it builds. -/
def animateUnitsForPhase (getPos : List Char → Pos)
    (prevUnits currUnits : List (Power × List (List Char))) : List UnitAnim :=
  (currUnits.foldl (fun acc pu => pu.2.foldl (planStep getPos pu.1) acc)
    (buildPrevDict getPos prevUnits, [])).2

/-- The previous phase's parsed units in iteration order, as the
specification describes the pool of match candidates. -/
def parsedUnits : List (Power × List (List Char)) → List (Power × Char × List Char)
  | [] => []
  | pu :: rest =>
    pu.2.filterMap (fun u => (matchUnitRegex u).map (fun r => (pu.1, r.1, r.2))) ++
      parsedUnits rest

/-- One step of the planner as the claim words it: pair the unit with the
first unclaimed previous unit of the same power and the same unit type
(iteration-order greedy match), producing a move from that unit's
resolved coordinate; otherwise a spawn from below the map surface at the
target's horizontal coordinates. -/
def specStep (getPos : List Char → Pos) (p : Power)
    (acc : List (Power × Char × List Char) × List UnitAnim) (u : List Char) :
    List (Power × Char × List Char) × List UnitAnim :=
  match matchUnitRegex u with
  | none => acc
  | some r =>
    let currentPos := getPos r.2
    match acc.1.find? (fun q => decide (q.1 = p ∧ q.2.1 = r.1)) with
    | some q =>
      (acc.1.eraseP (fun q => decide (q.1 = p ∧ q.2.1 = r.1)),
        acc.2 ++ [⟨p, r.1, r.2, getPos q.2.2, currentPos⟩])
    | none =>
      (acc.1, acc.2 ++ [⟨p, r.1, r.2, ⟨currentPos.x, -20, currentPos.z⟩, currentPos⟩])

/-- The transition plan as described by the claim (greedy same-power
same-type matching over the parsed pool). -/
def specGreedyPlan (getPos : List Char → Pos)
    (prevUnits currUnits : List (Power × List (List Char))) : List UnitAnim :=
  (currUnits.foldl (fun acc pu => pu.2.foldl (specStep getPos pu.1) acc)
    (parsedUnits prevUnits, [])).2

/-- Total number of unit strings of a phase, across all powers. -/
def totalUnitCount (units : List (Power × List (List Char))) : Nat :=
  units.foldl (fun n pu => n + pu.2.length) 0

/-- Number of well-formed unit strings of a phase, across all powers. -/
def totalParsedCount (units : List (Power × List (List Char))) : Nat :=
  units.foldl (fun n pu => n + pu.2.countP (fun u => (matchUnitRegex u).isSome)) 0

theorem planStep_len (getPos : List Char → Pos) (p : Power)
    (acc : List (List Char × Pos) × List UnitAnim) (u : List Char) :
    ((planStep getPos p acc u).2).length =
      acc.2.length + (if (matchUnitRegex u).isSome then 1 else 0) := by
  unfold planStep
  cases h : matchUnitRegex u with
  | none => simp
  | some r =>
    dsimp only
    split <;> simp

theorem foldPlan_len (getPos : List Char → Pos) (p : Power) (us : List (List Char))
    (acc : List (List Char × Pos) × List UnitAnim) :
    ((us.foldl (planStep getPos p) acc).2).length =
      acc.2.length + us.countP (fun u => (matchUnitRegex u).isSome) := by
  induction us generalizing acc with
  | nil => simp
  | cons a as ih =>
    rw [List.foldl_cons, ih, planStep_len, List.countP_cons]
    by_cases h : (matchUnitRegex a).isSome <;> simp [h]
    omega

theorem foldl_add_init {α : Type} (f : α → Nat) (l : List α) (n : Nat) :
    l.foldl (fun acc x => acc + f x) n = n + l.foldl (fun acc x => acc + f x) 0 := by
  induction l generalizing n with
  | nil => simp
  | cons a as ih =>
    rw [List.foldl_cons, List.foldl_cons, ih, ih (0 + f a)]
    omega

theorem animate_len_aux (getPos : List Char → Pos)
    (currUnits : List (Power × List (List Char)))
    (acc : List (List Char × Pos) × List UnitAnim) :
    ((currUnits.foldl (fun acc pu => pu.2.foldl (planStep getPos pu.1) acc) acc).2).length =
      acc.2.length +
        currUnits.foldl (fun n pu => n + pu.2.countP (fun u => (matchUnitRegex u).isSome)) 0 := by
  induction currUnits generalizing acc with
  | nil => simp
  | cons pu rest ih =>
    rw [List.foldl_cons, ih, foldPlan_len, List.foldl_cons,
      foldl_add_init (fun (pu : Power × List (List Char)) =>
        pu.2.countP (fun u => (matchUnitRegex u).isSome)) rest
        (0 + pu.2.countP (fun u => (matchUnitRegex u).isSome))]
    omega

/-- C8 counterexample: the planned-animation count does not equal the raw
unit count of the new phase: a malformed unit string is skipped, so a
phase with the single malformed unit string HI yields zero animations
against a unit count of one. -/
theorem c8_counterexample :
    ¬ (∀ (getPos : List Char → Pos) (prevUnits currUnits : List (Power × List (List Char))),
        (animateUnitsForPhase getPos prevUnits currUnits).length =
          totalUnitCount currUnits) := by
  intro hcl
  have h := hcl (fun _ => ⟨0, 0, 0⟩) [] [(Power.FRANCE, [['H', 'I']])]
  revert h
  decide

/-- C8 (amended): after the unit-transition planner runs, the number of
planned unit animations equals the number of well-formed unit strings of
the new phase summed across all powers; malformed unit strings are
skipped and contribute none. -/
theorem c8_animation_count (getPos : List Char → Pos)
    (prevUnits currUnits : List (Power × List (List Char))) :
    (animateUnitsForPhase getPos prevUnits currUnits).length =
      totalParsedCount currUnits := by
  unfold animateUnitsForPhase totalParsedCount
  rw [animate_len_aux]
  simp

theorem keyPref_isPrefixOf_unitKey (p q : Power) (t u : Char) (loc : List Char) :
    ((keyPref p t).isPrefixOf (unitKey q u loc) = true) ↔ (p = q ∧ t = u) := by
  cases p <;> cases q <;> simp [keyPref, unitKey, powerChars, List.isPrefixOf]

/-- The dictionary entry a parsed previous unit contributes. -/
def dictEntry (getPos : List Char → Pos) (q : Power × Char × List Char) :
    List Char × Pos :=
  (unitKey q.1 q.2.1 q.2.2, getPos q.2.2)

/-- The keys contributed by a parsed-unit pool. -/
def poolKeys (pool : List (Power × Char × List Char)) : List (List Char) :=
  pool.map (fun q => unitKey q.1 q.2.1 q.2.2)

theorem keyPref_pred (getPos : List Char → Pos) (p : Power) (t : Char)
    (q : Power × Char × List Char) :
    (keyPref p t).isPrefixOf (dictEntry getPos q).1 =
      decide (q.1 = p ∧ q.2.1 = t) := by
  by_cases hq : q.1 = p ∧ q.2.1 = t
  · rw [decide_eq_true hq]
    exact (keyPref_isPrefixOf_unitKey p q.1 t q.2.1 q.2.2).mpr ⟨hq.1.symm, hq.2.symm⟩
  · rw [decide_eq_false hq]
    rw [Bool.eq_false_iff]
    intro hc
    rcases (keyPref_isPrefixOf_unitKey p q.1 t q.2.1 q.2.2).mp hc with ⟨h1, h2⟩
    exact hq ⟨h1.symm, h2.symm⟩

theorem find?_dict (getPos : List Char → Pos) (p : Power) (t : Char)
    (pool : List (Power × Char × List Char)) :
    (pool.map (dictEntry getPos)).find? (fun e => (keyPref p t).isPrefixOf e.1) =
      (pool.find? (fun q => decide (q.1 = p ∧ q.2.1 = t))).map (dictEntry getPos) := by
  rw [List.find?_map]
  have hfun : ((fun (e : List Char × Pos) => (keyPref p t).isPrefixOf e.1) ∘
      dictEntry getPos) =
      (fun (q : Power × Char × List Char) => decide (q.1 = p ∧ q.2.1 = t)) := by
    funext q
    exact keyPref_pred getPos p t q
  rw [hfun]

theorem eraseP_dict (getPos : List Char → Pos) (p : Power) (t : Char)
    (pool : List (Power × Char × List Char)) :
    (pool.map (dictEntry getPos)).eraseP (fun e => (keyPref p t).isPrefixOf e.1) =
      (pool.eraseP (fun q => decide (q.1 = p ∧ q.2.1 = t))).map (dictEntry getPos) := by
  induction pool with
  | nil => rfl
  | cons q rest ih =>
    rw [List.map_cons, List.eraseP_cons, List.eraseP_cons, keyPref_pred]
    by_cases hq : q.1 = p ∧ q.2.1 = t
    · rw [decide_eq_true hq]
      rfl
    · rw [decide_eq_false hq]
      show dictEntry getPos q ::
          (rest.map (dictEntry getPos)).eraseP (fun e => (keyPref p t).isPrefixOf e.1) =
        (q :: rest.eraseP (fun q => decide (q.1 = p ∧ q.2.1 = t))).map (dictEntry getPos)
      rw [List.map_cons, ih]

theorem buildInner (getPos : List Char → Pos) (p : Power) (us : List (List Char))
    (d : List (List Char × Pos)) :
    us.foldl (fun d u =>
      match matchUnitRegex u with
      | none => d
      | some r => objInsert (unitKey p r.1 r.2) (getPos r.2) d) d =
    (us.filterMap (fun u => (matchUnitRegex u).map (fun r => (p, r.1, r.2)))).foldl
      (fun d q => objInsert (unitKey q.1 q.2.1 q.2.2) (getPos q.2.2) d) d := by
  induction us generalizing d with
  | nil => rfl
  | cons a as ih =>
    rw [List.foldl_cons, List.filterMap_cons]
    cases h : matchUnitRegex a with
    | none =>
      simp only [h, Option.map_none']
      exact ih d
    | some r =>
      simp only [h, Option.map_some']
      rw [List.foldl_cons]
      exact ih _

theorem build_eq_dictFold (getPos : List Char → Pos)
    (prev : List (Power × List (List Char))) :
    buildPrevDict getPos prev =
      (parsedUnits prev).foldl
        (fun d q => objInsert (unitKey q.1 q.2.1 q.2.2) (getPos q.2.2) d) [] := by
  suffices h : ∀ (pr : List (Power × List (List Char))) (d : List (List Char × Pos)),
      pr.foldl (fun d pu =>
        pu.2.foldl (fun d u =>
          match matchUnitRegex u with
          | none => d
          | some r => objInsert (unitKey pu.1 r.1 r.2) (getPos r.2) d) d) d =
      (parsedUnits pr).foldl
        (fun d q => objInsert (unitKey q.1 q.2.1 q.2.2) (getPos q.2.2) d) d by
    exact h prev []
  intro pr
  induction pr with
  | nil => intro d; rfl
  | cons pu rest ih =>
    intro d
    rw [List.foldl_cons,
      show parsedUnits (pu :: rest) =
        pu.2.filterMap (fun u => (matchUnitRegex u).map (fun r => (pu.1, r.1, r.2))) ++
          parsedUnits rest from rfl,
      List.foldl_append, ih, buildInner]

theorem dictFold_fresh (getPos : List Char → Pos)
    (pool : List (Power × Char × List Char)) :
    ∀ d, (poolKeys pool).Nodup →
    (∀ q ∈ pool, ∀ e ∈ d, e.1 ≠ unitKey q.1 q.2.1 q.2.2) →
    pool.foldl (fun d q => objInsert (unitKey q.1 q.2.1 q.2.2) (getPos q.2.2) d) d =
      d ++ pool.map (dictEntry getPos) := by
  induction pool with
  | nil =>
    intro d _ _
    simp
  | cons q rest ih =>
    intro d hnd hdisj
    rw [List.foldl_cons]
    have hany : d.any (fun e => decide (e.1 = unitKey q.1 q.2.1 q.2.2)) = false := by
      rw [List.any_eq_false]
      intro e he
      simp only [decide_eq_true_iff]
      exact hdisj q (List.mem_cons_self q rest) e he
    have hins : objInsert (unitKey q.1 q.2.1 q.2.2) (getPos q.2.2) d =
        d ++ [dictEntry getPos q] := by
      unfold objInsert
      rw [hany]
      simp [dictEntry]
    rw [hins, ih]
    · rw [List.map_cons, List.append_assoc]
      rfl
    · exact (List.nodup_cons.mp hnd).2
    · intro q2 hq2 e he
      rcases List.mem_append.mp he with hd | hsing
      · exact hdisj q2 (List.mem_cons_of_mem _ hq2) e hd
      · rw [List.mem_singleton] at hsing
        subst hsing
        show (dictEntry getPos q).1 ≠ unitKey q2.1 q2.2.1 q2.2.2
        have hnotin : unitKey q.1 q.2.1 q.2.2 ∉ poolKeys rest := (List.nodup_cons.mp hnd).1
        intro hc
        apply hnotin
        show unitKey q.1 q.2.1 q.2.2 ∈ rest.map (fun q => unitKey q.1 q.2.1 q.2.2)
        have hc2 : unitKey q.1 q.2.1 q.2.2 = unitKey q2.1 q2.2.1 q2.2.2 := hc
        rw [hc2]
        exact List.mem_map_of_mem _ hq2

theorem build_eq_map (getPos : List Char → Pos)
    (prev : List (Power × List (List Char)))
    (hnd : (poolKeys (parsedUnits prev)).Nodup) :
    buildPrevDict getPos prev = (parsedUnits prev).map (dictEntry getPos) := by
  rw [build_eq_dictFold]
  have h := dictFold_fresh getPos (parsedUnits prev) [] hnd
    (by intro q _ e he; cases he)
  simpa using h

theorem specStep_nodup (getPos : List Char → Pos) (p : Power)
    (pool : List (Power × Char × List Char)) (anims : List UnitAnim)
    (u : List Char) (hnd : (poolKeys pool).Nodup) :
    (poolKeys (specStep getPos p (pool, anims) u).1).Nodup := by
  unfold specStep
  cases matchUnitRegex u with
  | none => exact hnd
  | some r =>
    dsimp only
    cases pool.find? (fun q => decide (q.1 = p ∧ q.2.1 = r.1)) with
    | none => exact hnd
    | some q =>
      dsimp only
      exact List.Sublist.nodup
        (List.Sublist.map _ (List.eraseP_sublist pool)) hnd

theorem planStep_sim (getPos : List Char → Pos) (p : Power)
    (pool : List (Power × Char × List Char)) (anims : List UnitAnim)
    (u : List Char) :
    planStep getPos p (pool.map (dictEntry getPos), anims) u =
      ((specStep getPos p (pool, anims) u).1.map (dictEntry getPos),
        (specStep getPos p (pool, anims) u).2) := by
  unfold planStep specStep
  cases hparse : matchUnitRegex u with
  | none => rfl
  | some r =>
    dsimp only
    rw [find?_dict]
    cases hfind : pool.find? (fun q => decide (q.1 = p ∧ q.2.1 = r.1)) with
    | none => rfl
    | some q =>
      dsimp only [Option.map_some']
      rw [eraseP_dict]
      rfl

theorem foldPlan_sim (getPos : List Char → Pos) (p : Power) (us : List (List Char)) :
    ∀ (pool : List (Power × Char × List Char)) (anims : List UnitAnim),
    (poolKeys pool).Nodup →
    us.foldl (planStep getPos p) (pool.map (dictEntry getPos), anims) =
      ((us.foldl (specStep getPos p) (pool, anims)).1.map (dictEntry getPos),
        (us.foldl (specStep getPos p) (pool, anims)).2) ∧
    (poolKeys (us.foldl (specStep getPos p) (pool, anims)).1).Nodup := by
  induction us with
  | nil =>
    intro pool anims hnd
    exact ⟨rfl, hnd⟩
  | cons a as ih =>
    intro pool anims hnd
    rw [List.foldl_cons, List.foldl_cons, planStep_sim]
    have hnd2 := specStep_nodup getPos p pool anims a hnd
    exact ih (specStep getPos p (pool, anims) a).1 (specStep getPos p (pool, anims) a).2 hnd2

theorem foldPhase_sim (getPos : List Char → Pos)
    (currUnits : List (Power × List (List Char))) :
    ∀ (pool : List (Power × Char × List Char)) (anims : List UnitAnim),
    (poolKeys pool).Nodup →
    currUnits.foldl (fun acc pu => pu.2.foldl (planStep getPos pu.1) acc)
        (pool.map (dictEntry getPos), anims) =
      ((currUnits.foldl (fun acc pu => pu.2.foldl (specStep getPos pu.1) acc)
          (pool, anims)).1.map (dictEntry getPos),
        (currUnits.foldl (fun acc pu => pu.2.foldl (specStep getPos pu.1) acc)
          (pool, anims)).2) ∧
    (poolKeys (currUnits.foldl (fun acc pu => pu.2.foldl (specStep getPos pu.1) acc)
        (pool, anims)).1).Nodup := by
  induction currUnits with
  | nil =>
    intro pool anims hnd
    exact ⟨rfl, hnd⟩
  | cons pu rest ih =>
    intro pool anims hnd
    rw [List.foldl_cons, List.foldl_cons]
    have hin := foldPlan_sim getPos pu.1 pu.2 pool anims hnd
    rw [hin.1]
    exact ih _ _ hin.2

/-- C7: the transition planner implements exactly the greedy pairing the
specification describes: each well-formed unit string of the new phase is
paired, in iteration order, with the first unclaimed previous-phase unit
of the same power and the same unit type, giving a move animation from
the matched unit's resolved coordinate to the new unit's resolved
coordinate, and otherwise a spawn animation starting at y = -20 below
the map surface at the target's horizontal coordinates.  The hypothesis
asks the previous phase's parsed units to have pairwise distinct
power-type-location keys, which holds for every adjudicated game state
(two units never share a location); without it the string-keyed
dictionary of the source collapses duplicates. -/
theorem c7_greedy_match (getPos : List Char → Pos)
    (prevUnits currUnits : List (Power × List (List Char)))
    (hnd : (poolKeys (parsedUnits prevUnits)).Nodup) :
    animateUnitsForPhase getPos prevUnits currUnits =
      specGreedyPlan getPos prevUnits currUnits := by
  unfold animateUnitsForPhase specGreedyPlan
  rw [build_eq_map getPos prevUnits hnd]
  have h := foldPhase_sim getPos currUnits (parsedUnits prevUnits) [] hnd
  rw [h.1]

/-- Coordinate resolver for the C7 witness: position a location by its
length (an arbitrary but concrete stand-in for the coordinate table). -/
def c7get : List Char → Pos := fun l => ⟨(l.length : Int), 10, 0⟩

/-- Previous phase units for the C7 witness. -/
def c7prev : List (Power × List (List Char)) :=
  [(Power.FRANCE, [['A', ' ', 'P', 'A', 'R']]),
   (Power.GERMANY, [['F', ' ', 'K', 'I', 'E']])]

/-- New phase units for the C7 witness: France's army moves, Germany's
fleet moves, Germany's new army has no previous counterpart. -/
def c7curr : List (Power × List (List Char)) :=
  [(Power.FRANCE, [['A', ' ', 'B', 'U', 'R']]),
   (Power.GERMANY, [['F', ' ', 'H', 'O', 'L'], ['A', ' ', 'M', 'U', 'N']])]

/-- C7 witness: on a concrete transition the planner output coincides
with the greedy specification plan, producing two moves from the matched
units' coordinates and one spawn from below the map (y = -20). -/
theorem c7_greedy_match_witness :
    (poolKeys (parsedUnits c7prev)).Nodup ∧
    animateUnitsForPhase c7get c7prev c7curr = specGreedyPlan c7get c7prev c7curr ∧
    animateUnitsForPhase c7get c7prev c7curr =
      [⟨Power.FRANCE, 'A', ['B', 'U', 'R'], ⟨3, 10, 0⟩, ⟨3, 10, 0⟩⟩,
       ⟨Power.GERMANY, 'F', ['H', 'O', 'L'], ⟨3, 10, 0⟩, ⟨3, 10, 0⟩⟩,
       ⟨Power.GERMANY, 'A', ['M', 'U', 'N'], ⟨3, -20, 0⟩, ⟨3, 10, 0⟩⟩] :=
  ⟨by decide, c7_greedy_match c7get c7prev c7curr (by decide), by decide⟩
